import Mathlib

/-!
Shallow embedding of the hermes gateway data plane (Rust), for checking the
natural-language specification against the code.

Every definition is translated from the repository sources:
  - src/gateway/src/upstream/circuit_breaker.rs
  - src/gateway/src/proxy/filter/rate_limit.rs
  - src/gateway/src/upstream/loadbalance{.rs,/round_robin.rs,/random.rs,
    /least_request.rs,/peak_ewma.rs}
  - src/gateway/src/proxy/handler.rs (phase_upstream, negotiate_encoding)
  - src/gateway/src/routing/{matcher.rs,radix_tree.rs}

Modelling conventions:
  - machine integers are Nat (with explicit `% 2^w` where wrap matters),
    f64 values are exact fractions (`Frac`; float rounding is not modelled),
    `Instant` timestamps are Nat microseconds / abstract ticks;
  - Rust `&str` operations are re-implemented over `List Char` so that all
    definitions evaluate inside the kernel;
  - shared atomics (`Arc<AtomicUsize>` counters) are modelled by their
    values: "the counter is carried across" becomes "the value is equal";
  - `HashMap`/`DashMap` are association lists; where the Rust code depends
    on a `HashMap`'s (unspecified) iteration order, the order is an explicit
    oracle parameter;
  - randomness (`rand::Rng`) is an explicit argument: `gen_range(0..n)` is
    modelled as `r % n` for a caller-supplied `r`.
-/

/-! ## Char-list string helpers (models of Rust `str` operations) -/

/-- Model of Rust `str::split(c)`: split a char list at every occurrence of
`c`, keeping empty pieces (`"a,,b".split(',')` yields `["a","","b"]`). -/
def splitOnChar (c : Char) : List Char → List (List Char)
  | [] => [[]]
  | x :: xs =>
    match splitOnChar c xs with
    | [] => [[]]
    | y :: ys => if x = c then [] :: y :: ys else (x :: y) :: ys

/-- Model of Rust `str::trim`: drop whitespace from both ends. -/
def trimAscii (cs : List Char) : List Char :=
  ((cs.dropWhile Char.isWhitespace).reverse.dropWhile Char.isWhitespace).reverse

/-- Model of Rust `char::to_ascii_lowercase`, applied pointwise. -/
def asciiLowerChar (c : Char) : Char :=
  if 'A' ≤ c ∧ c ≤ 'Z' then Char.ofNat (c.toNat + 32) else c

/-- Model of Rust `str::to_ascii_lowercase`. -/
def asciiLower (cs : List Char) : List Char :=
  cs.map asciiLowerChar

/-- Model of Rust `str::to_uppercase` restricted to ASCII (methods and hosts
in the gateway are ASCII). -/
def asciiUpperChar (c : Char) : Char :=
  if 'a' ≤ c ∧ c ≤ 'z' then Char.ofNat (c.toNat - 32) else c

/-- Model of Rust `str::to_uppercase` (ASCII fragment). -/
def asciiUpper (cs : List Char) : List Char :=
  cs.map asciiUpperChar

/-- Value of a digit list read in base 10. -/
def digitsToNat (ds : List Char) : Nat :=
  ds.foldl (fun a d => a * 10 + (d.toNat - Char.toNat '0')) 0

/-- Exact model of the f64 values the gateway computes with: an unnormalized
fraction `num / den` with `den` positive in every use. Exact fractions are
used instead of floats; float rounding is not modelled (the claims' numbers
are all exactly representable). Unnormalized fractions are used rather than
`ℚ` so that every definition evaluates inside the kernel. -/
structure Frac where
  num : Int
  den : Nat
deriving DecidableEq, Repr

/-- Embed a machine integer into `Frac` (`as f64` on small values). -/
def Frac.ofNat (n : Nat) : Frac :=
  ⟨n, 1⟩

/-- f64 division by an integer-valued denominator. -/
def Frac.divNat (q : Frac) (n : Nat) : Frac :=
  ⟨q.num, q.den * n⟩

/-- f64 multiplication by an integer-valued factor. -/
def Frac.mulNat (q : Frac) (n : Nat) : Frac :=
  ⟨q.num * n, q.den⟩

/-- Model of Rust `as u64` on a nonnegative-or-clamped f64 value: truncate
toward zero, saturating at 0 for negative inputs. -/
def Frac.truncU64 (q : Frac) : Nat :=
  q.num.toNat / q.den

/-- `q ≤ 0.0` for a fraction with positive denominator. -/
def Frac.nonpos (q : Frac) : Bool :=
  q.num ≤ 0

/-- The rational value of a fraction (for spec-side statements only). -/
def Frac.toRat (q : Frac) : ℚ :=
  (q.num : ℚ) / (q.den : ℚ)

/-- Model of Rust `str::parse::<f32>` on the decimal fragment actually used
by quality values: optional sign, digits, optional fraction. Exponent,
`inf` and `nan` forms are not modelled (never produced by the HTTP
`q=` parameters that the claims mention). Returns an exact fraction. -/
def parseDecimal (cs : List Char) : Option Frac :=
  let signed : Int × List Char :=
    match cs with
    | '-' :: t => (-1, t)
    | '+' :: t => (1, t)
    | t => (1, t)
  let sign := signed.1
  let rest := signed.2
  let intPart := rest.takeWhile Char.isDigit
  let rest2 := rest.drop intPart.length
  match rest2 with
  | [] =>
    if intPart.isEmpty then none
    else some ⟨sign * (digitsToNat intPart : Int), 1⟩
  | '.' :: frac =>
    if frac.all Char.isDigit && !(intPart.isEmpty && frac.isEmpty) then
      some ⟨sign * ((digitsToNat intPart : Int) * (10 ^ frac.length : Nat) +
        (digitsToNat frac : Int)), 10 ^ frac.length⟩
    else none
  | _ => none

/-- Insertion step of `sortByLe`. -/
def insertSorted (le : α → α → Bool) (x : α) : List α → List α
  | [] => [x]
  | y :: ys => if le x y then x :: y :: ys else y :: insertSorted le x ys

/-- Model of Rust `slice::sort_unstable_by`: produce a list ordered by the
comparator. (An insertion sort; the claims only use that the result is a
permutation of the input consistent with the comparator.) -/
def sortByLe (le : α → α → Bool) : List α → List α
  | [] => []
  | x :: xs => insertSorted le x (sortByLe le xs)

/-! ## Circuit breaker (src/gateway/src/upstream/circuit_breaker.rs) -/

/-- `0 = Closed, 1 = Open, 2 = HalfOpen` state byte of a breaker.
(`open` is a Lean keyword, hence the constructor name `opened`.) -/
inductive BreakerState
  | closed
  | opened
  | halfOpen
deriving DecidableEq, Repr

/-- `CircuitBreakerConfig` (failure/success thresholds are `u32`,
`open_duration_secs` is `u64`). -/
structure CircuitBreakerConfig where
  failure_threshold : Nat
  success_threshold : Nat
  open_duration_secs : Nat
deriving DecidableEq, Repr

/-- Per-node breaker state (`NodeBreaker`), timestamps as abstract ticks. -/
structure NodeBreaker where
  state : BreakerState
  consecutive_failures : Nat
  half_open_successes : Nat
  opened_at : Option Nat
  config : CircuitBreakerConfig
deriving DecidableEq, Repr

/-- `NodeBreaker::record_failure`, with `now` the current instant.
`fetch_add` on the `u32` counters wraps at `2^32`. -/
def NodeBreaker.record_failure (b : NodeBreaker) (now : Nat) : NodeBreaker :=
  match b.state with
  | .closed =>
    let count := (b.consecutive_failures + 1) % 2 ^ 32
    if count ≥ b.config.failure_threshold then
      { b with state := .opened, consecutive_failures := count, opened_at := some now }
    else
      { b with consecutive_failures := count }
  | .halfOpen =>
    { b with state := .opened, opened_at := some now, half_open_successes := 0 }
  | .opened => b

/-- `NodeBreaker::record_success`. -/
def NodeBreaker.record_success (b : NodeBreaker) : NodeBreaker :=
  match b.state with
  | .closed => { b with consecutive_failures := 0 }
  | .halfOpen =>
    let count := (b.half_open_successes + 1) % 2 ^ 32
    if count ≥ b.config.success_threshold then
      { b with state := .closed, half_open_successes := count,
               consecutive_failures := 0 }
    else
      { b with half_open_successes := count }
  | .opened => b

/-! ## Association-list models of `DashMap` -/

/-- `DashMap::get` (first entry with the key). -/
def assocLookup (m : List (String × α)) (k : String) : Option α :=
  (m.find? (fun e => e.1 = k)).map (fun e => e.2)

/-- In-place update of the entry holding key `k`. -/
def assocUpdate (m : List (String × α)) (k : String) (v : α) : List (String × α) :=
  m.map (fun e => if e.1 = k then (k, v) else e)

/-- `DashMap::remove` applied to each key of `ks` in order. -/
def removeKeys (m : List (String × α)) (ks : List String) : List (String × α) :=
  ks.foldl (fun acc k => acc.filter (fun e => e.1 ≠ k)) m

/-! ## Rate limiter (src/gateway/src/proxy/filter/rate_limit.rs) -/

/-- `PRECISION`: the 1e6 token-scaling factor. -/
def PRECISION : Nat := 1000000

/-- `GC_EXPIRE_SECS`: idle entries older than this many seconds are evicted. -/
def GC_EXPIRE_SECS : Nat := 300

/-- `MAX_ENTRIES`: hard cap on entries per map. -/
def MAX_ENTRIES : Nat := 100000

/-- `RateLimitConfig` (config/types.rs): `rate` is an f64 option. -/
structure RateLimitConfig where
  mode : String
  rate : Option Frac
  burst : Option Nat
  count : Option Nat
  time_window : Option Nat
  key : String
  rejected_code : Nat
deriving Repr

/-- `BucketInner`: token count scaled by `PRECISION`, refill bookkeeping. -/
structure BucketInner where
  tokens : Nat
  last_refill : Nat
  rate_per_us : Frac
  max_tokens : Nat
deriving DecidableEq, Repr

/-- `Bucket`: inner state plus the GC last-access stamp (µs). -/
structure Bucket where
  inner : BucketInner
  last_access : Nat
deriving DecidableEq, Repr

/-- `SlidingWindowInner`. -/
structure SlidingWindowInner where
  current_count : Nat
  prev_count : Nat
  window_start : Nat
  max_count : Nat
  window_us : Nat
deriving DecidableEq, Repr

/-- `SlidingWindow`. -/
structure SlidingWindow where
  inner : SlidingWindowInner
  last_access : Nat
deriving DecidableEq, Repr

/-- `RateLimiter`: two keyed maps plus the shared instance count value. -/
structure RateLimiter where
  buckets : List (String × Bucket)
  windows : List (String × SlidingWindow)
  instance_count : Nat
deriving Repr

/-- `RateLimiter::current_instance_count`: the atomic value clamped to ≥ 1. -/
def RateLimiter.current_instance_count (rl : RateLimiter) : Nat :=
  max rl.instance_count 1

/-- `Bucket::try_acquire` at instant `now` (µs): refill by elapsed time,
clamp to `max_tokens`, then consume one `PRECISION`-scaled token if
available. Returns the decision and the updated bucket. -/
def Bucket.try_acquire (b : Bucket) (now : Nat) : Bool × Bucket :=
  let elapsed := now - b.inner.last_refill
  let inner :=
    if elapsed > 0 then
      let refill := ((b.inner.rate_per_us.mulNat elapsed).mulNat PRECISION).truncU64
      { b.inner with
          tokens := min (b.inner.tokens + refill) b.inner.max_tokens,
          last_refill := now }
    else b.inner
  let cost := PRECISION
  if inner.tokens ≥ cost then
    (true, { b with inner := { inner with tokens := inner.tokens - cost } })
  else
    (false, { b with inner := inner })

/-- `RateLimiter::check_token_bucket` for `key` at instant `now`: derive the
per-instance rate, create a full bucket on first use of the key, touch
`last_access`, and `try_acquire`. -/
def RateLimiter.check_token_bucket (rl : RateLimiter) (config : RateLimitConfig)
    (key : String) (now : Nat) : Bool × RateLimiter :=
  let n := rl.current_instance_count
  let rate := (config.rate.getD (Frac.ofNat 100)).divNat n
  let burst := max (config.burst.getD rate.truncU64) 1
  let max_tokens := (rate.truncU64 + burst) * PRECISION
  let rate_per_us := rate.divNat PRECISION
  let bucket :=
    match assocLookup rl.buckets key with
    | some b => b
    | none =>
      { inner := { tokens := max_tokens, last_refill := now,
                   rate_per_us := rate_per_us, max_tokens := max_tokens },
        last_access := now }
  let bucket := { bucket with last_access := now }
  let res := bucket.try_acquire now
  let buckets :=
    match assocLookup rl.buckets key with
    | some _ => assocUpdate rl.buckets key res.2
    | none => rl.buckets ++ [(key, res.2)]
  (res.1, { rl with buckets := buckets })

/-- `SlidingWindow::try_acquire` at instant `now`: closed form of the source's
window-advancement `while` loop (`steps` is the number of loop iterations;
the source loop diverges when `window_us = 0`, a case the gateway never
builds since `window_us = time_window × 1e6` with `time_window ≥ 1`
defaulted — the model performs zero iterations there), then the
previous-window blending estimate. -/
def SlidingWindow.try_acquire (w : SlidingWindow) (now : Nat) : Bool × SlidingWindow :=
  let i := w.inner
  let steps := if i.window_us = 0 then 0 else (now - i.window_start) / i.window_us
  let i :=
    if steps = 0 then i
    else if steps = 1 then
      { i with prev_count := i.current_count, current_count := 0,
               window_start := i.window_start + i.window_us }
    else
      { i with prev_count := 0, current_count := 0,
               window_start := i.window_start + steps * i.window_us }
  let i := if now - i.window_start ≥ i.window_us then { i with prev_count := 0 } else i
  let elapsed_in_window := now - i.window_start
  let weight : Frac :=
    if i.window_us > 0 then ⟨(i.window_us : Int) - (elapsed_in_window : Int), i.window_us⟩
    else ⟨0, 1⟩
  let estimated := (weight.mulNat i.prev_count).truncU64 + i.current_count
  if estimated < i.max_count then
    (true, { w with inner := { i with current_count := i.current_count + 1 } })
  else
    (false, { w with inner := i })

/-- `RateLimiter::check_sliding_window` for `key` at instant `now`. -/
def RateLimiter.check_sliding_window (rl : RateLimiter) (config : RateLimitConfig)
    (key : String) (now : Nat) : Bool × RateLimiter :=
  let n := rl.current_instance_count
  let max_count := max ((config.count.getD 1000) / n) 1
  let window_secs := config.time_window.getD 1
  let window :=
    match assocLookup rl.windows key with
    | some w => w
    | none =>
      { inner := { current_count := 0, prev_count := 0, window_start := now,
                   max_count := max_count, window_us := window_secs * 1000000 },
        last_access := now }
  let window := { window with last_access := now }
  let res := window.try_acquire now
  let windows :=
    match assocLookup rl.windows key with
    | some _ => assocUpdate rl.windows key res.2
    | none => rl.windows ++ [(key, res.2)]
  (res.1, { rl with windows := windows })

/-- `RateLimiter::check`: dispatch on the configured mode. -/
def RateLimiter.check (rl : RateLimiter) (config : RateLimitConfig)
    (key : String) (now : Nat) : Bool × RateLimiter :=
  if config.mode = "count" then rl.check_sliding_window config key now
  else rl.check_token_bucket config key now

/-- Shared body of `force_evict_buckets` / `force_evict_windows`: remove the
oldest-access entries (sorted by age descending) until at most
`MAX_ENTRIES` remain. `lastAccess` projects the entry's last-access stamp. -/
def forceEvictEntries (lastAccess : α → Nat) (m : List (String × α))
    (now : Nat) : List (String × α) :=
  let overflow := m.length - MAX_ENTRIES
  if overflow = 0 then m
  else
    let entries := m.map (fun r => (r.1, now - lastAccess r.2))
    let sorted := sortByLe (fun a b => b.2 ≤ a.2) entries
    removeKeys m ((sorted.take overflow).map (fun e => e.1))

/-- `RateLimiter::evict_stale` at instant `now`: drop entries idle for
`GC_EXPIRE_SECS`, then force-evict the oldest while a map exceeds
`MAX_ENTRIES`. Run by the GC task every `GC_INTERVAL_SECS = 60` seconds. -/
def RateLimiter.evict_stale (rl : RateLimiter) (now : Nat) : RateLimiter :=
  let expire_us := GC_EXPIRE_SECS * 1000000
  let buckets := rl.buckets.filter (fun v => now - v.2.last_access < expire_us)
  let buckets :=
    if buckets.length > MAX_ENTRIES then
      forceEvictEntries (fun b => b.last_access) buckets now
    else buckets
  let windows := rl.windows.filter (fun v => now - v.2.last_access < expire_us)
  let windows :=
    if windows.length > MAX_ENTRIES then
      forceEvictEntries (fun w => w.last_access) windows now
    else windows
  { rl with buckets := buckets, windows := windows }

/-! ## Load balancers (src/gateway/src/upstream/loadbalance/) -/

/-- `UpstreamNode` (config) — metadata map omitted (no claim reads it). -/
structure UpstreamNode where
  host : String
  port : Nat
  weight : Nat
deriving DecidableEq, Repr

/-- `UpstreamInstance`: the shared `Arc<AtomicUsize>` active-request counter
is modelled by its value; `endpoint` is the cached `"host:port"` string. -/
structure UpstreamInstance where
  host : String
  port : Nat
  weight : Nat
  active_requests : Nat
  endpoint : String
deriving DecidableEq, Repr

/-- `From<&UpstreamNode> for UpstreamInstance`: a fresh zero-valued
active-request counter and the precomputed endpoint string. The endpoint
rendering of `format!("{}:{}", host, port)` is supplied by the caller in
concrete statements (digit rendering is irrelevant to the claims). -/
def instanceFromNode (n : UpstreamNode) (endpoint : String) : UpstreamInstance :=
  { host := n.host, port := n.port, weight := n.weight,
    active_requests := 0, endpoint := endpoint }

/-- Prefix sums of the per-node weights, each clamped to ≥ 1 — the loop
shared by `RoundRobinBalancer::update_instances` and
`RandomBalancer::update_instances`. -/
def buildPrefixSum : List UpstreamInstance → Nat → List Nat
  | [], _ => []
  | i :: is, acc => (acc + max i.weight 1) :: buildPrefixSum is (acc + max i.weight 1)

/-- `slice::partition_point`: index of the first element not satisfying `p`
(the lists involved are partitioned by construction). -/
def partitionPoint (p : Nat → Bool) : List Nat → Nat
  | [] => 0
  | x :: xs => if p x then partitionPoint p xs + 1 else 0

/-- `RoundRobinBalancer` state (`BalancerState` plus the modular counter). -/
structure RoundRobinState where
  instances : List UpstreamInstance
  prefix_sum : List Nat
  total_weight : Nat
  counter : Nat
deriving Repr

/-- `RoundRobinBalancer::update_instances`: rebuild prefix sums; the shared
counter is untouched. -/
def RoundRobinState.update_instances (st : RoundRobinState)
    (instances : List UpstreamInstance) : RoundRobinState :=
  let prefix_sum := buildPrefixSum instances 0
  { instances := instances, prefix_sum := prefix_sum,
    total_weight := prefix_sum.getLastD 0, counter := st.counter }

/-- `RoundRobinBalancer::do_select`: `None` when `total_weight == 0`,
otherwise binary-search the prefix array at `counter % total_weight`.
Returns the selection and the post-`fetch_add` state (`u64` wrap). -/
def RoundRobinState.do_select (st : RoundRobinState) :
    Option UpstreamInstance × RoundRobinState :=
  if st.total_weight = 0 then (none, st)
  else
    let count := st.counter
    let st' := { st with counter := (st.counter + 1) % 2 ^ 64 }
    let target := count % st.total_weight
    let idx := partitionPoint (fun s => s ≤ target) st.prefix_sum
    (st.instances.get? idx, st')

/-- `RandomBalancer` state. -/
structure RandomState where
  instances : List UpstreamInstance
  prefix_sum : List Nat
  total_weight : Nat
deriving Repr

/-- `RandomBalancer::update_instances`. -/
def RandomState.update_instances (st : RandomState)
    (instances : List UpstreamInstance) : RandomState :=
  let _ := st
  let prefix_sum := buildPrefixSum instances 0
  { instances := instances, prefix_sum := prefix_sum,
    total_weight := prefix_sum.getLastD 0 }

/-- `RandomBalancer::do_select` with the drawn random `r`
(`gen_range(0..total)` modelled as `r % total`). -/
def RandomState.do_select (st : RandomState) (r : Nat) : Option UpstreamInstance :=
  if st.total_weight = 0 then none
  else
    let target := r % st.total_weight
    let idx := partitionPoint (fun s => s ≤ target) st.prefix_sum
    st.instances.get? idx

/-- `a ≤ b` on f64 scores (valid for the positive denominators in use). -/
def Frac.le (a b : Frac) : Bool :=
  a.num * (b.den : Int) ≤ b.num * (a.den : Int)

/-- `LeastRequestBalancer` state. -/
structure LeastRequestState where
  instances : List UpstreamInstance
deriving Repr

/-- `LeastRequestBalancer::update_instances`: keep the shared active-request
counter of any node whose endpoint already exists in the old list. -/
def LeastRequestState.update_instances (st : LeastRequestState)
    (instances : List UpstreamInstance) : LeastRequestState :=
  { instances := instances.map (fun inst =>
      match st.instances.find? (fun e => e.endpoint = inst.endpoint) with
      | some existing => { inst with active_requests := existing.active_requests }
      | none => inst) }

/-- `LeastRequestBalancer::score`: `active_requests / max(weight, 1)`. -/
def lrScore (inst : UpstreamInstance) : Frac :=
  ⟨(inst.active_requests : Int), max inst.weight 1⟩

/-- `LeastRequestBalancer::do_select` with P2C randomness `r1, r2`
(`idx1 = r1 % len`, `offset = 1 + r2 % (len - 1)`). -/
def LeastRequestState.do_select (st : LeastRequestState) (r1 r2 : Nat) :
    Option UpstreamInstance :=
  match st.instances with
  | [] => none
  | [only] => some only
  | _ =>
    let len := st.instances.length
    let idx1 := r1 % len
    let idx2 := (idx1 + (1 + r2 % (len - 1))) % len
    match st.instances.get? idx1, st.instances.get? idx2 with
    | some a, some b => some (if (lrScore a).le (lrScore b) then a else b)
    | _, _ => none

/-- `InstanceWithLatency`: instance plus its shared EWMA latency value
(field `inst` — `instance` is a Lean keyword). -/
structure InstanceWithLatency where
  inst : UpstreamInstance
  ewma_latency_ns : Frac
deriving Repr

/-- `PeakEwmaBalancer` state (`alpha` clamped at construction). -/
structure PeakEwmaState where
  instances : List InstanceWithLatency
  alpha : Frac
  initial_latency_ns : Nat
deriving Repr

/-- `PeakEwmaBalancer::update_instances`: carry both the active-request
counter and the EWMA latency of any endpoint present in the old list;
new endpoints start at the initial latency. -/
def PeakEwmaState.update_instances (st : PeakEwmaState)
    (instances : List UpstreamInstance) : PeakEwmaState :=
  { st with instances := instances.map (fun i =>
      match st.instances.find? (fun e => e.inst.endpoint = i.endpoint) with
      | some existing =>
        { inst := { i with active_requests := existing.inst.active_requests },
          ewma_latency_ns := existing.ewma_latency_ns }
      | none => { inst := i, ewma_latency_ns := Frac.ofNat st.initial_latency_ns }) }

/-- `InstanceWithLatency::score`: `ewma × (active + 1) / max(weight, 1)`. -/
def peScore (e : InstanceWithLatency) : Frac :=
  ⟨e.ewma_latency_ns.num * ((e.inst.active_requests : Int) + 1),
   e.ewma_latency_ns.den * max e.inst.weight 1⟩

/-- `InstanceWithLatency::update_latency`:
`ewma' = alpha × observed + (1 - alpha) × ewma`. -/
def InstanceWithLatency.update_latency (e : InstanceWithLatency)
    (new_latency_ns : Nat) (alpha : Frac) : InstanceWithLatency :=
  { e with ewma_latency_ns :=
      ⟨alpha.num * (new_latency_ns : Int) * (e.ewma_latency_ns.den : Int) +
        ((alpha.den : Int) - alpha.num) * e.ewma_latency_ns.num,
       alpha.den * e.ewma_latency_ns.den⟩ }

/-- `PeakEwmaBalancer::do_select` with P2C randomness (selection only; the
`LatencyGuard` RAII latency recording is `update_latency`). -/
def PeakEwmaState.do_select (st : PeakEwmaState) (r1 r2 : Nat) :
    Option InstanceWithLatency :=
  match st.instances with
  | [] => none
  | [only] => some only
  | _ =>
    let len := st.instances.length
    let idx1 := r1 % len
    let idx2 := (idx1 + (1 + r2 % (len - 1))) % len
    match st.instances.get? idx1, st.instances.get? idx2 with
    | some a, some b => some (if (peScore a).le (peScore b) then a else b)
    | _, _ => none

/-! ## Upstream phase (src/gateway/src/proxy/handler.rs, `phase_upstream`)

The retry loop is modelled as a pure transition over abstract wall-clock
ticks. Only the awaited upstream attempts consume time (all other work in
the loop body is synchronous bookkeeping); `tokio::time::timeout(remaining,
request)` is modelled by cutting the attempt's duration at the per-attempt
timeout. Node selection (`select_healthy_node`, which consults the tried
list, active health checks and breakers) is abstracted into the
`nodeAvail` oracle; breaker/health recording has no bearing on the claims
settled here and is not replayed. -/

/-- `RetryConfig` (config/types.rs). -/
structure RetryConfig where
  count : Nat
  retry_on_statuses : List Nat
  retry_on_connect_failure : Bool
  retry_on_timeout : Bool
deriving Repr

/-- What one upstream attempt would produce if it completed in time. -/
inductive AttemptOutcome
  | response (status : Nat)
  | connectError
deriving DecidableEq, Repr

/-- One attempt's behavior: its duration and (if it completes before the
per-attempt timeout fires) its outcome. -/
structure AttemptSpec where
  dur : Nat
  outcome : AttemptOutcome
deriving Repr

/-- What `phase_upstream` hands back: either the upstream response itself
(whose status the client then sees via `build_downstream_response`) or a
gateway-synthesized JSON error response. -/
inductive UpstreamReply
  | upstream (status : Nat)
  | errorResponse (status : Nat)
deriving DecidableEq, Repr

/-- Observable run of the upstream phase: reply, number of attempts issued,
`gateway_upstream_retries_total` increments, total time consumed, and per
attempt the pair (remaining budget at start, per-attempt timeout used). -/
structure UpstreamRun where
  reply : UpstreamReply
  attempts : Nat
  retriesLogged : Nat
  elapsed : Nat
  attemptLog : List (Nat × Nat)
deriving Repr

/-- `StatusCode::from_u16(status).unwrap_or(StatusCode::BAD_GATEWAY)`. -/
def statusOr502 (status : Nat) : Nat :=
  if 100 ≤ status ∧ status ≤ 999 then status else 502

/-- The `for attempt in 0..=max_retries` loop of `phase_upstream`. `fuel` is
the number of loop iterations left (`max_retries + 1 - attempt`); `now` is
the time consumed so far, `deadline` the total budget. -/
def runAttempts (maxRetries : Nat) (retryCfg : Option RetryConfig)
    (specs : Nat → AttemptSpec) (nodeAvail : Nat → Bool) (deadline : Nat) :
    Nat → Nat → Nat → Nat → Nat → Option Nat → List (Nat × Nat) → UpstreamRun
  | 0, _, now, attempts, retries, lastError, log =>
    { reply := .errorResponse (lastError.getD 502), attempts := attempts,
      retriesLogged := retries, elapsed := now, attemptLog := log }
  | fuel + 1, attempt, now, attempts, retries, lastError, log =>
    let remaining := deadline - now
    if remaining = 0 then
      { reply := .errorResponse (lastError.getD 504), attempts := attempts,
        retriesLogged := retries, elapsed := now, attemptLog := log }
    else if !nodeAvail attempt then
      { reply := .errorResponse (lastError.getD 503), attempts := attempts,
        retriesLogged := retries, elapsed := now, attemptLog := log }
    else
      let spec := specs attempt
      let log := log ++ [(remaining, remaining)]
      let attempts := attempts + 1
      if spec.dur < remaining then
        let now := now + spec.dur
        match spec.outcome with
        | .response status =>
          let retryable :=
            attempt < maxRetries &&
              (match retryCfg with
               | some rcfg => rcfg.retry_on_statuses.contains status
               | none => false)
          if retryable then
            runAttempts maxRetries retryCfg specs nodeAvail deadline fuel
              (attempt + 1) now attempts (retries + 1)
              (some (statusOr502 status)) log
          else
            { reply := .upstream status, attempts := attempts,
              retriesLogged := retries, elapsed := now, attemptLog := log }
        | .connectError =>
          let canRetry :=
            ((retryCfg.map (fun r => r.retry_on_connect_failure)).getD false)
              && attempt < maxRetries
          if canRetry then
            runAttempts maxRetries retryCfg specs nodeAvail deadline fuel
              (attempt + 1) now attempts (retries + 1) (some 502) log
          else
            { reply := .errorResponse 502, attempts := attempts,
              retriesLogged := retries, elapsed := now, attemptLog := log }
      else
        let now := now + remaining
        let canRetry :=
          ((retryCfg.map (fun r => r.retry_on_timeout)).getD false)
            && attempt < maxRetries
        if canRetry then
          runAttempts maxRetries retryCfg specs nodeAvail deadline fuel
            (attempt + 1) now attempts (retries + 1) (some 504) log
        else
          { reply := .errorResponse 504, attempts := attempts,
            retriesLogged := retries, elapsed := now, attemptLog := log }

/-- `phase_upstream`: global deadline `send_timeout + read_timeout`, then up
to `1 + retry.count` attempts. -/
def phase_upstream (retryCfg : Option RetryConfig) (specs : Nat → AttemptSpec)
    (nodeAvail : Nat → Bool) (send_timeout read_timeout : Nat) : UpstreamRun :=
  let max_retries := (retryCfg.map (fun r => r.count)).getD 0
  let total_budget := send_timeout + read_timeout
  runAttempts max_retries retryCfg specs nodeAvail total_budget
    (max_retries + 1) 0 0 0 0 none []

/-! ## Accept-Encoding negotiation (handler.rs, `negotiate_encoding`) -/

/-- The `q=`-parameter scan: first parameter that strips the `q=` marker and
parses (a failed parse moves on to the next parameter). -/
def qFromParams (params : List (List Char)) : Option Frac :=
  params.findSome? (fun p =>
    match trimAscii p with
    | 'q' :: '=' :: v => parseDecimal (trimAscii v)
    | _ => none)

/-- One iteration of the `negotiate_encoding` loop: update the
`(br_ok, gzip_ok)` flags from one comma-separated part. A missing `q`
defaults to 1.0; `q ≤ 0` disables the token; `br`, `gzip` and `*` are the
accepted tokens. -/
def scanEncodingPart (acc : Bool × Bool) (part : List Char) : Bool × Bool :=
  let part := trimAscii part
  match splitOnChar ';' part with
  | [] => acc
  | enc :: params =>
    let encoding := asciiLower (trimAscii enc)
    let q := (qFromParams params).getD ⟨1, 1⟩
    if q.nonpos then acc
    else if encoding = "br".data then (true, acc.2)
    else if encoding = "gzip".data then (acc.1, true)
    else if encoding = "*".data then (true, true)
    else acc

/-- `negotiate_encoding`: prefer brotli over gzip when both are accepted. -/
def negotiate_encoding (accept_encoding : List Char) : Option String :=
  let flags := (splitOnChar ',' accept_encoding).foldl scanEncodingPart (false, false)
  if flags.1 then some ("br") else if flags.2 then some ("gzip") else none

/-! ## Routing (src/gateway/src/routing/{radix_tree.rs,matcher.rs})

`HashMap` children are association lists (keyed lookup — iteration order
never observed); the top-level wildcard-host `HashMap`, whose iteration
order IS observed by `match_route`, is handled through the explicit
`hashOrder` oracle in `RouteTable.new`. Compiled regexes
(`regex::Regex::new`) are an oracle `compileRegex` returning the match
predicate, `none` for an invalid pattern. -/

/-- ASCII lowercase of a string. -/
def lowerStr (s : String) : String :=
  String.mk (asciiLower s.data)

/-- ASCII uppercase of a string. -/
def upperStr (s : String) : String :=
  String.mk (asciiUpper s.data)

/-- `config::HeaderMatcher` (the DTO). -/
structure HeaderMatcherCfg where
  name : String
  value : String
  match_type : String
  invert : Bool
deriving Repr

/-- `config::RouteConfig` — only the fields consulted while building and
matching the route table (`id`, `clusters`, `rate_limit`, header
transforms, `plugins`, `max_body_bytes`, `enable_compression`,
`cluster_override_header` are not read by `RouteTable::match_route`). -/
structure RouteConfig where
  name : String
  uri : String
  methods : List String
  headers : List HeaderMatcherCfg
  priority : Int
  status : Nat
deriving Repr

/-- `HeaderMatchType` (`prefixMatch` renders `Prefix`). -/
inductive HeaderMatchType
  | exact
  | prefixMatch
  | regex
  | present
deriving DecidableEq, Repr

/-- `CompiledHeaderMatcher`; the compiled regex is its match predicate. -/
structure CompiledHeaderMatcher where
  name : String
  value : String
  match_type : HeaderMatchType
  invert : Bool
  regex : Option (String → Bool)

/-- `CompiledHeaderMatcher::matches`. -/
def CompiledHeaderMatcher.matches (hm : CompiledHeaderMatcher)
    (header_value : Option String) : Bool :=
  let raw :=
    match hm.match_type with
    | .present => header_value.isSome
    | .exact =>
      match header_value with
      | some v => v = hm.value
      | none => false
    | .prefixMatch =>
      match header_value with
      | some v => hm.value.data.isPrefixOf v.data
      | none => false
    | .regex =>
      match hm.regex with
      | some re =>
        match header_value with
        | some v => re v
        | none => false
      | none => false
  if hm.invert then !raw else raw

/-- `CompiledRoute` — the fields the route table's matching reads (filters,
cluster selector, header ops, body/compression settings omitted: matching
never reads them). -/
structure CompiledRoute where
  name : String
  uri : String
  priority : Int
  methods : List String
  header_matchers : List CompiledHeaderMatcher

/-- A node of the compressed radix tree (`Node`): compressed segments,
children keyed by their first segment, and the two route lists. -/
inductive RNode where
  | mk (segments : List String) (children : List (String × RNode))
       (exact_routes : List CompiledRoute) (wildcard_routes : List CompiledRoute)

/-- Segments of a node. -/
def RNode.segments : RNode → List String
  | .mk s _ _ _ => s

/-- Children of a node. -/
def RNode.children : RNode → List (String × RNode)
  | .mk _ c _ _ => c

/-- Exact routes attached at a node. -/
def RNode.exact_routes : RNode → List CompiledRoute
  | .mk _ _ e _ => e

/-- Wildcard routes attached at a node. -/
def RNode.wildcard_routes : RNode → List CompiledRoute
  | .mk _ _ _ w => w

/-- `common_prefix_len`: length of the common segment prefix. -/
def common_prefix_len : List String → List String → Nat
  | x :: xs, y :: ys => if x = y then common_prefix_len xs ys + 1 else 0
  | _, _ => 0

/-- `parse_uri_segments`: URI pattern → (segments, wildcard flag). -/
def parse_uri_segments (uri : String) : List String × Bool :=
  let trimmed := uri.data.dropWhile (fun c => c = '/')
  if trimmed.isEmpty || trimmed = "*".data then ([], trimmed = "*".data)
  else
    let parts := splitOnChar '/' trimmed
    if parts.getLast? = some ("*".data) then
      ((parts.dropLast).map (fun p => String.mk p), true)
    else
      (parts.map (fun p => String.mk p), false)

/-- `split_uri_segments`: request URI → segments (query string stripped). -/
def split_uri_segments (uri : String) : List String :=
  let path := (splitOnChar '?' uri.data).headD uri.data
  let trimmed := path.dropWhile (fun c => c = '/')
  if trimmed.isEmpty then []
  else (splitOnChar '/' trimmed).map (fun p => String.mk p)

/-- `MatchResult` of a URI match. -/
inductive TreeMatchResult
  | exactR (exact : List CompiledRoute) (wildcard_fallbacks : List (List CompiledRoute))
  | wildcardR (candidates : List (List CompiledRoute))
  | noneR

/-- `insert_recursive` together with the inlined `split_and_insert`:
walk the tree matching child-by-child; attach the route once the pattern's
segments are consumed; split a partially-matching child. In the split, the
source re-inserts the old child under the truncated node and then looks
`new_first` up in that single-entry child map, so the lookup hits exactly
when `new_first = old_first` — translated as that equality test.

`fuel` bounds the recursion so that the definition is structural (and hence
evaluates inside the kernel): every descent advances `offset` by
`common ≥ 1`, because in any tree built by `insert` a child's compressed
segment list is nonempty and starts with its key; `RadixTree.insert` passes
`segments.length + 1`, which therefore is never exhausted. -/
def RNode.insertRec : Nat → RNode → List String → Nat → CompiledRoute → Bool → RNode
  | 0, node, _, _, _, _ => node
  | fuel + 1, .mk segs children ex wc, segments, offset, route, is_wildcard =>
    match segments.drop offset with
    | [] =>
      if is_wildcard then .mk segs children ex (wc ++ [route])
      else .mk segs children (ex ++ [route]) wc
    | first :: rest =>
      match children.find? (fun e => e.1 = first) with
      | some entry =>
        let common := common_prefix_len entry.2.segments (first :: rest)
        if common = entry.2.segments.length then
          let newChild := RNode.insertRec fuel entry.2 segments (offset + common) route is_wildcard
          .mk segs (children.map (fun e => if e.1 = first then (first, newChild) else e)) ex wc
        else
          let old_suffix := entry.2.segments.drop common
          let old_node := RNode.mk old_suffix entry.2.children entry.2.exact_routes entry.2.wildcard_routes
          let old_first := old_suffix.headD ""
          let trunc := entry.2.segments.take common
          let new_remaining := segments.drop (offset + common)
          let newChild :=
            match new_remaining with
            | [] =>
              if is_wildcard then RNode.mk trunc [(old_first, old_node)] [] [route]
              else RNode.mk trunc [(old_first, old_node)] [route] []
            | new_first :: _ =>
              if new_first = old_first then
                RNode.mk trunc
                  [(old_first, RNode.insertRec fuel old_node segments (offset + common) route is_wildcard)]
                  [] []
              else
                let freshNode :=
                  if is_wildcard then RNode.mk new_remaining [] [] [route]
                  else RNode.mk new_remaining [] [route] []
                RNode.mk trunc [(old_first, old_node), (new_first, freshNode)] [] []
          .mk segs (children.map (fun e => if e.1 = first then (first, newChild) else e)) ex wc
      | none =>
        let freshNode :=
          if is_wildcard then RNode.mk (first :: rest) [] [] [route]
          else RNode.mk (first :: rest) [] [route] []
        .mk segs (children ++ [(first, freshNode)]) ex wc

/-- `match_recursive`: descend the tree pushing each visited node's wildcard
routes; on exit the stack is reversed so the deepest wildcard comes first.
`fuel` bounds the recursion structurally exactly as in `RNode.insertRec`
(`match_uri` passes `segments.length + 1`, never exhausted on trees built
by `insert`). -/
def RNode.matchRec : Nat → RNode → List String → Nat → List (List CompiledRoute) → TreeMatchResult
  | 0, _, _, _, _ => .noneR
  | fuel + 1, .mk _segs children ex wc, segments, offset, stack =>
    let stack := if wc.isEmpty then stack else stack ++ [wc]
    match segments.drop offset with
    | [] =>
      if !ex.isEmpty then .exactR ex stack.reverse
      else if stack.isEmpty then .noneR
      else .wildcardR stack.reverse
    | first :: rest =>
      match children.find? (fun e => e.1 = first) with
      | some entry =>
        if entry.2.segments.length ≤ (first :: rest).length
            && (entry.2.segments.zip (first :: rest)).all (fun p => p.1 == p.2) then
          RNode.matchRec fuel entry.2 segments (offset + entry.2.segments.length) stack
        else if stack.isEmpty then .noneR else .wildcardR stack.reverse
      | none =>
        if stack.isEmpty then .noneR else .wildcardR stack.reverse

/-- `RadixTree` (the `instance_count` handle is only forwarded to filter
construction, which matching never reads — omitted). -/
structure RadixTree where
  root : RNode

/-- An empty tree (`RadixTree::new`). -/
def RadixTree.newTree : RadixTree :=
  ⟨RNode.mk [] [] [] []⟩

/-- `compile_header_matchers`: lowercase the names, map the kind strings,
compile regexes through the `compileRegex` oracle; `none` when some regex
is invalid (the route is then dropped). -/
def compile_header_matchers (compileRegex : String → Option (String → Bool))
    (config : RouteConfig) : Option (List CompiledHeaderMatcher) :=
  config.headers.mapM (fun hm =>
    let mt : HeaderMatchType :=
      if hm.match_type = "prefix" then .prefixMatch
      else if hm.match_type = "regex" then .regex
      else if hm.match_type = "present" then .present
      else .exact
    if mt = .regex then
      (compileRegex hm.value).map (fun re =>
        { name := lowerStr hm.name, value := hm.value, match_type := mt,
          invert := hm.invert, regex := some re })
    else
      some { name := lowerStr hm.name, value := hm.value, match_type := mt,
             invert := hm.invert, regex := none })

/-- `RadixTree::insert`: compile the route (uppercased methods, compiled
header matchers), drop it if a header regex is invalid, then insert. -/
def RadixTree.insert (t : RadixTree) (compileRegex : String → Option (String → Bool))
    (config : RouteConfig) : RadixTree :=
  match compile_header_matchers compileRegex config with
  | none => t
  | some header_matchers =>
    let compiled : CompiledRoute :=
      { name := config.name, uri := config.uri, priority := config.priority,
        methods := config.methods.map upperStr, header_matchers := header_matchers }
    let parsed := parse_uri_segments config.uri
    ⟨RNode.insertRec (parsed.1.length + 1) t.root parsed.1 0 compiled parsed.2⟩

/-- `RadixTree::match_uri`. -/
def RadixTree.match_uri (t : RadixTree) (uri : String) : TreeMatchResult :=
  let segments := split_uri_segments uri
  RNode.matchRec (segments.length + 1) t.root segments 0 []

/-- Request headers: a map with lowercased names (as in `http::HeaderMap`). -/
def headerGet (headers : List (String × String)) (name : String) : Option String :=
  (headers.find? (fun e => e.1 = name)).map (fun e => e.2)

/-- `best_route_from`: highest-priority route passing the method filter and
all header matchers; on equal priority the first encountered wins. -/
def best_route_from (routes : List CompiledRoute) (method_upper : String)
    (headers : List (String × String)) : Option CompiledRoute :=
  let best := routes.foldl (fun best route =>
    if !route.methods.isEmpty && !route.methods.contains method_upper then best
    else if !route.header_matchers.isEmpty &&
        !(route.header_matchers.all (fun hm => hm.matches (headerGet headers hm.name))) then best
    else
      match best with
      | some current => if route.priority ≤ current.priority then some current else some route
      | none => some route) none
  best

/-- `match_in_tree`: exact routes first, then the wildcard chain from
deepest to shallowest. -/
def match_in_tree (tree : RadixTree) (uri : String) (method_upper : String)
    (headers : List (String × String)) : Option CompiledRoute :=
  match tree.match_uri uri with
  | .exactR exact wildcard_fallbacks =>
    match best_route_from exact method_upper headers with
    | some r => some r
    | none => wildcard_fallbacks.findSome? (fun wc => best_route_from wc method_upper headers)
  | .wildcardR candidates =>
    candidates.findSome? (fun wc => best_route_from wc method_upper headers)
  | .noneR => none

/-- `host_matches`: `*suffix` / `prefix*` wildcards, else exact,
all ASCII-case-insensitive. -/
def host_matches (req_host : String) (pattern : String) : Bool :=
  match pattern.data with
  | '*' :: suffix =>
    req_host.data.length ≥ suffix.length &&
      asciiLower (req_host.data.drop (req_host.data.length - suffix.length)) = asciiLower suffix
  | pdata =>
    if pdata.getLast? = some '*' then
      let pre := pdata.dropLast
      req_host.data.length ≥ pre.length &&
        asciiLower (req_host.data.take pre.length) = asciiLower pre
    else
      asciiLower req_host.data = asciiLower pdata

/-- `config::DomainConfig`. -/
structure DomainConfig where
  name : String
  hosts : List String
  routes : List RouteConfig
deriving Repr

/-- Accumulator of `RouteTable::new`'s grouping loop: the three host
partitions (grouped in first-insertion order) and the route count. -/
structure RouteGroups where
  exact : List (String × List RouteConfig)
  wildcard : List (String × List RouteConfig)
  defaults : List RouteConfig
  count : Nat

/-- `HashMap::entry(key).or_default().push(cfg)` on an insertion-ordered
association list. -/
def pushGroup (groups : List (String × List RouteConfig)) (key : String)
    (cfg : RouteConfig) : List (String × List RouteConfig) :=
  if groups.any (fun g => g.1 = key) then
    groups.map (fun g => if g.1 = key then (g.1, g.2 ++ [cfg]) else g)
  else groups ++ [(key, [cfg])]

/-- One host of one enabled route in `RouteTable::new`'s loop. -/
def addRouteForHost (g : RouteGroups) (cfg : RouteConfig) (host : String) : RouteGroups :=
  if host = "_" then { g with defaults := g.defaults ++ [cfg] }
  else if host.data.contains '*' then { g with wildcard := pushGroup g.wildcard host cfg }
  else { g with exact := pushGroup g.exact (lowerStr host) cfg }

/-- The grouping loop of `RouteTable::new`: skip disabled routes
(`status ≠ 1`), partition each enabled route by each of its domain's hosts. -/
def collectGroups (domains : List DomainConfig) : RouteGroups :=
  domains.foldl (fun g domain =>
    domain.routes.foldl (fun g cfg =>
      if cfg.status ≠ 1 then g
      else
        domain.hosts.foldl (fun g host => addRouteForHost g cfg host)
          { g with count := g.count + 1 }) g)
    ⟨[], [], [], 0⟩

/-- Build one radix tree from a group's route list. -/
def buildTree (compileRegex : String → Option (String → Bool))
    (cfgs : List RouteConfig) : RadixTree :=
  cfgs.foldl (fun t c => t.insert compileRegex c) RadixTree.newTree

/-- `RouteTable`: `tdefault` renders the source's `default` field. -/
structure RouteTable where
  exact_hosts : List (String × RadixTree)
  wildcard_hosts : List (String × RadixTree)
  tdefault : RadixTree
  route_count : Nat

/-- `RouteTable::new`. The wildcard groups pass through the `hashOrder`
oracle, which models the unspecified iteration order of
`HashMap<String, Vec<RouteConfig>>::into_iter()` (any permutation of the
grouped patterns is a possible run of the source; the exact-host map is
only ever used by keyed lookup, so its order is irrelevant and the grouped
order is kept). -/
def RouteTable.new (domains : List DomainConfig)
    (hashOrder : List (String × List RouteConfig) → List (String × List RouteConfig))
    (compileRegex : String → Option (String → Bool)) : RouteTable :=
  let g := collectGroups domains
  { exact_hosts := g.exact.map (fun p => (p.1, buildTree compileRegex p.2)),
    wildcard_hosts := (hashOrder g.wildcard).map (fun p => (p.1, buildTree compileRegex p.2)),
    tdefault := buildTree compileRegex g.defaults,
    route_count := g.count }

/-- The wildcard-host scan of `match_route`: first pattern (in list order)
that matches the host and whose tree yields a route. -/
def scanWildcardHosts (ws : List (String × RadixTree)) (req_host : String)
    (uri : String) (method_upper : String) (headers : List (String × String)) :
    Option CompiledRoute :=
  ws.findSome? (fun pt =>
    if host_matches req_host pt.1 then match_in_tree pt.2 uri method_upper headers
    else none)

/-- `RouteTable::match_route`: exact host, then the wildcard patterns in
list order, then the default tree. -/
def RouteTable.match_route (tbl : RouteTable) (host : String) (uri : String)
    (method : String) (headers : List (String × String)) : Option CompiledRoute :=
  let method_upper := upperStr method
  let req_host := String.mk ((splitOnChar ':' host.data).headD host.data)
  let req_host_lower := lowerStr req_host
  let exactRes :=
    match (tbl.exact_hosts.find? (fun e => e.1 = req_host_lower)).map (fun e => e.2) with
    | some tree => match_in_tree tree uri method_upper headers
    | none => none
  match exactRes with
  | some r => some r
  | none =>
    match scanWildcardHosts tbl.wildcard_hosts req_host uri method_upper headers with
    | some r => some r
    | none => match_in_tree tbl.tdefault uri method_upper headers

/-! ## Derived operations and concrete inputs used by the claim statements -/

/-- Number of successful `try_acquire` calls among `m` consecutive calls on
one bucket at one instant (the immediate-burst spend of a client). -/
def Bucket.acquireCount (b : Bucket) (now : Nat) : Nat → Nat
  | 0 => 0
  | m + 1 =>
    let r := b.try_acquire now
    (if r.1 then 1 else 0) + r.2.acquireCount now m

/-- Fold `check_token_bucket` over a list of keys (all at one instant) —
the state reached by a burst of requests with distinct rate-limit keys. -/
def applyChecks (cfg : RateLimitConfig) (now : Nat) :
    List String → RateLimiter → RateLimiter
  | [], rl => rl
  | k :: ks, rl => applyChecks cfg now ks (rl.check_token_bucket cfg k now).2

/-- A plain token-bucket config (`mode = "req"`, `rate = 100`). -/
def tbConfig : RateLimitConfig :=
  { mode := "req", rate := some (Frac.ofNat 100), burst := none, count := none,
    time_window := none, key := "host_uri", rejected_code := 429 }

/-- Token-bucket config with fractional per-instance rate 0.5. -/
def tbHalfRateConfig : RateLimitConfig :=
  { mode := "req", rate := some ⟨1, 2⟩, burst := none, count := none,
    time_window := none, key := "route", rejected_code := 429 }

/-- 100 001 pairwise-distinct rate-limit keys. -/
def manyKeys : List String :=
  (List.range (MAX_ENTRIES + 1)).map (fun i => String.mk (List.replicate i 'a'))

/-- A concrete token bucket (empty, zero refill rate). -/
def demoBucket : Bucket :=
  { inner := { tokens := 0, last_refill := 0, rate_per_us := Frac.ofNat 0,
               max_tokens := 0 },
    last_access := 0 }

/-- A concrete rate limiter holding one bucket under key `"k"`. -/
def demoLimiter : RateLimiter :=
  { buckets := [("k", demoBucket)], windows := [], instance_count := 1 }

/-- A zero-weight upstream node's instance (`"a:80"`). -/
def zeroWeightInst : UpstreamInstance :=
  { host := "a", port := 80, weight := 0, active_requests := 0, endpoint := "a:80" }

/-- The `"a:80"` instance carrying 5 in-flight requests. -/
def busyInstA : UpstreamInstance :=
  { host := "a", port := 80, weight := 100, active_requests := 5, endpoint := "a:80" }

/-- The `"a:80"` node as configured. -/
def nodeA : UpstreamNode :=
  { host := "a", port := 80, weight := 100 }

/-- Empty round-robin balancer (`RoundRobinBalancer::new`). -/
def rrEmpty : RoundRobinState :=
  { instances := [], prefix_sum := [], total_weight := 0, counter := 0 }

/-- Empty weighted-random balancer. -/
def randEmpty : RandomState :=
  { instances := [], prefix_sum := [], total_weight := 0 }

/-- Empty P2C-least-request balancer. -/
def lrEmpty : LeastRequestState :=
  { instances := [] }

/-- Empty peak-EWMA balancer (`PeakEwmaBalancer::new_default()`:
`alpha = 0.2`, initial latency 20 ms). -/
def peEmpty : PeakEwmaState :=
  { instances := [], alpha := ⟨2, 10⟩, initial_latency_ns := 20000000 }

/-- An enabled route config carrying only a name and a URI pattern. -/
def plainRoute (n : String) (u : String) : RouteConfig :=
  { name := n, uri := u, methods := [], headers := [], priority := 0, status := 1 }

/-- Two domains with overlapping wildcard host patterns: `*.a.com`
(configured first, route `r1`) and `*.com` (configured second, route `r2`).
The host `x.a.com` matches both patterns. -/
def overlappingWildcardDomains : List DomainConfig :=
  [ { name := "d1", hosts := ["*.a.com"], routes := [plainRoute "r1" "/*"] },
    { name := "d2", hosts := ["*.com"], routes := [plainRoute "r2" "/*"] } ]

/-- The regex oracle for configurations that use no regex matchers. -/
def noRegex : String → Option (String → Bool) :=
  fun _ => none

/-- The retry policy of spec scenario 3: one retry, retry on 503 only by
status (connect-failure/timeout retries at their defaults). -/
def scenario3Retry : RetryConfig :=
  { count := 1, retry_on_statuses := [503], retry_on_connect_failure := true,
    retry_on_timeout := true }

/-! ## Claim C5 — circuit breaker in Closed -/

/-- C5: for a breaker in the Closed state, `record_failure` transitions it
to Open and records `opened_at` exactly when the incremented
consecutive-failure count reaches (`≥`) `failure_threshold` (below the
threshold it stays with the incremented count), and `record_success` keeps
it Closed with the consecutive-failure count reset to 0. -/
theorem C5_closed_breaker_transitions (b : NodeBreaker) (now : Nat)
    (h : b.state = .closed) :
    (((b.record_failure now).state = .opened ∧
        (b.record_failure now).opened_at = some now) ↔
      b.config.failure_threshold ≤ (b.consecutive_failures + 1) % 2 ^ 32)
    ∧ (b.record_failure now).consecutive_failures
        = (b.consecutive_failures + 1) % 2 ^ 32
    ∧ ((b.consecutive_failures + 1) % 2 ^ 32 < b.config.failure_threshold →
        (b.record_failure now).state = .closed)
    ∧ b.record_success.state = .closed
    ∧ b.record_success.consecutive_failures = 0 := by
  obtain ⟨st, cf, ho, oa, cfg⟩ := b
  simp only at h
  subst h
  by_cases hc : cfg.failure_threshold ≤ (cf + 1) % 4294967296 <;>
    refine ⟨?_, ?_, ?_, ?_, ?_⟩ <;>
    simp [NodeBreaker.record_failure, NodeBreaker.record_success, hc]

/-- Witness for C5 at a concrete breaker two failures short of threshold 3. -/
theorem C5_closed_breaker_transitions_witness :
    ((NodeBreaker.mk .closed 2 0 none ⟨3, 2, 30⟩).record_failure 7).state = .opened :=
  ((C5_closed_breaker_transitions (NodeBreaker.mk .closed 2 0 none ⟨3, 2, 30⟩) 7
    (by decide)).1.mpr (by decide)).1

/-! ## Claim C10 — record_failure on an Open breaker -/

/-- C10: `record_failure` on a breaker whose state is Open is a no-op —
state, `opened_at`, consecutive-failure count and half-open success count
are all unchanged. -/
theorem C10_record_failure_open_noop (b : NodeBreaker) (now : Nat)
    (h : b.state = .opened) : b.record_failure now = b := by
  obtain ⟨st, cf, ho, oa, cfg⟩ := b
  simp only at h
  subst h
  simp [NodeBreaker.record_failure]

/-- Witness for C10 at a concrete open breaker. -/
theorem C10_record_failure_open_noop_witness :
    (NodeBreaker.mk .opened 3 0 (some 5) ⟨3, 2, 30⟩).record_failure 99
      = NodeBreaker.mk .opened 3 0 (some 5) ⟨3, 2, 30⟩ :=
  C10_record_failure_open_noop (NodeBreaker.mk .opened 3 0 (some 5) ⟨3, 2, 30⟩) 99
    (by decide)

/-! ## Claim C1 — retry exhaustion on 503 -/

/-- C1 counterexample: with `retry.count = 1`, `retry_on_statuses = [503]`
and every attempt answering 503 (spec-default 6 s + 6 s timeouts), the
pipeline makes two attempts and logs one retry, but the reply handed back
is the upstream 503 response itself — its status is 503, and 502 is not what the
claim states (the last attempt's response is returned verbatim). -/
theorem C1_counterexample :
    (phase_upstream (some scenario3Retry) (fun _ => ⟨0, .response 503⟩)
        (fun _ => true) 6 6).attempts = 2
    ∧ (phase_upstream (some scenario3Retry) (fun _ => ⟨0, .response 503⟩)
        (fun _ => true) 6 6).retriesLogged = 1
    ∧ (phase_upstream (some scenario3Retry) (fun _ => ⟨0, .response 503⟩)
        (fun _ => true) 6 6).reply = .upstream 503
    ∧ UpstreamReply.upstream 503 ≠ .upstream 502
    ∧ UpstreamReply.upstream 503 ≠ .errorResponse 502 := by
  decide

/-- C1 amended: in the scenario of the claim (retry.count = 1, 503
retryable, every attempt an immediate 503, a node available each attempt,
positive budget), the pipeline makes two upstream attempts, increments the
retry counter once, and the final response returned to the client is the
upstream's 503 (not a synthesized 502). -/
theorem C1_retry_exhaustion_two_attempts_503 (send read : Nat)
    (h : 0 < send + read) :
    (phase_upstream (some scenario3Retry) (fun _ => ⟨0, .response 503⟩)
        (fun _ => true) send read).attempts = 2
    ∧ (phase_upstream (some scenario3Retry) (fun _ => ⟨0, .response 503⟩)
        (fun _ => true) send read).retriesLogged = 1
    ∧ (phase_upstream (some scenario3Retry) (fun _ => ⟨0, .response 503⟩)
        (fun _ => true) send read).reply = .upstream 503 := by
  have h0 : ¬(send = 0 ∧ read = 0) := by omega
  have h1 : 0 < send ∨ 0 < read := by omega
  simp [phase_upstream, runAttempts, scenario3Retry, statusOr502, h0, h1]

/-- Witness for C1's amended theorem at the spec-default timeouts. -/
theorem C1_retry_exhaustion_witness :
    (phase_upstream (some scenario3Retry) (fun _ => ⟨0, .response 503⟩)
        (fun _ => true) 6 6).reply = .upstream 503 :=
  (C1_retry_exhaustion_two_attempts_503 6 6 (by decide)).2.2

/-! ## Claim C8 — Accept-Encoding negotiation -/

/-- C8: quality-value negotiation — a token whose `q` parameters yield a
nonpositive quality is skipped (and a missing `q` list yields no parsed
value, so the default 1.0 applies); the tokens `br`, `gzip` and `*` are
accepted (with `*` enabling both); whenever brotli is acceptable the result
is brotli, and gzip only wins when brotli is not acceptable; on the spec's
concrete headers: `gzip;q=0, br;q=1` → brotli, `gzip;q=1, br;q=0` → gzip,
`*` → brotli. -/
theorem C8_accept_encoding_negotiation :
    (∀ (acc : Bool × Bool) (part : List Char) (enc : List Char)
        (params : List (List Char)),
      splitOnChar ';' (trimAscii part) = enc :: params →
      ((qFromParams params).getD ⟨1, 1⟩).nonpos = true →
      scanEncodingPart acc part = acc)
    ∧ qFromParams [] = none
    ∧ (∀ acc : Bool × Bool,
        scanEncodingPart acc ("br".data) = (true, acc.2)
        ∧ scanEncodingPart acc ("gzip".data) = (acc.1, true)
        ∧ scanEncodingPart acc ("*".data) = (true, true))
    ∧ (∀ cs : List Char,
        ((splitOnChar ',' cs).foldl scanEncodingPart (false, false)).1 = true →
        negotiate_encoding cs = some ("br"))
    ∧ (∀ cs : List Char,
        ((splitOnChar ',' cs).foldl scanEncodingPart (false, false)).1 = false →
        ((splitOnChar ',' cs).foldl scanEncodingPart (false, false)).2 = true →
        negotiate_encoding cs = some ("gzip"))
    ∧ negotiate_encoding ("gzip;q=0, br;q=1".data) = some ("br")
    ∧ negotiate_encoding ("gzip;q=1, br;q=0".data) = some ("gzip")
    ∧ negotiate_encoding ("*".data) = some ("br") := by
  refine ⟨?_, by decide, by decide, ?_, ?_, by decide, by decide, by decide⟩
  · intro acc part enc params hsplit hq
    simp only [scanEncodingPart, hsplit, hq]
    simp
  · intro cs h
    simp only [negotiate_encoding, h]
    simp
  · intro cs h1 h2
    simp only [negotiate_encoding, h1, h2]
    simp

/-- Witness for C8 at concrete parts and headers. -/
theorem C8_accept_encoding_negotiation_witness :
    scanEncodingPart (false, false) ("gzip;q=0".data) = (false, false)
    ∧ negotiate_encoding ("br, gzip".data) = some ("br") :=
  ⟨C8_accept_encoding_negotiation.1 (false, false) ("gzip;q=0".data)
      ("gzip".data) [("q=0".data)] (by decide) (by decide),
   C8_accept_encoding_negotiation.2.2.2.1 ("br, gzip".data) (by decide)⟩

/-! ## Claim C2 — select with all weights zero -/

/-- `partitionPoint` never exceeds the list length. -/
theorem partitionPoint_le_length (p : Nat → Bool) (l : List Nat) :
    partitionPoint p l ≤ l.length := by
  induction l with
  | nil => simp [partitionPoint]
  | cons x xs ih =>
    simp only [partitionPoint, List.length_cons]
    split <;> omega

/-- `partitionPoint` is strictly below the length as soon as some element
fails the predicate. -/
theorem partitionPoint_lt_length (p : Nat → Bool) (l : List Nat)
    (h : ∃ x ∈ l, p x = false) : partitionPoint p l < l.length := by
  induction l with
  | nil => simp at h
  | cons x xs ih =>
    obtain ⟨w, hw, hpw⟩ := h
    simp only [partitionPoint, List.length_cons]
    by_cases hp : p x
    · have hwxs : w ∈ xs := by
        rcases List.mem_cons.1 hw with rfl | h
        · simp [hp] at hpw
        · exact h
      have := ih ⟨w, hwxs, hpw⟩
      simp [hp]
      omega
    · simp [hp]

/-- The last element of a nonempty list (with default) is a member. -/
theorem getLastD_mem_of_ne_nil (l : List Nat) (d : Nat) (h : l ≠ []) :
    l.getLastD d ∈ l := by
  induction l generalizing d with
  | nil => exact absurd rfl h
  | cons x xs ih =>
    rw [List.getLastD_cons]
    rcases hx : xs with _ | ⟨y, ys⟩
    · simp
    · rw [← hx]
      have := ih x (by simp [hx])
      exact List.mem_cons_of_mem _ this

/-- The prefix-sum list has one entry per instance. -/
theorem buildPrefixSum_length (l : List UpstreamInstance) (acc : Nat) :
    (buildPrefixSum l acc).length = l.length := by
  induction l generalizing acc with
  | nil => simp [buildPrefixSum]
  | cons x xs ih => simp [buildPrefixSum, ih]

/-- The running total after the prefix-sum loop is the accumulated clamped
weight sum. -/
theorem buildPrefixSum_getLastD (l : List UpstreamInstance) (acc : Nat) :
    (buildPrefixSum l acc).getLastD acc
      = acc + (l.map (fun i => max i.weight 1)).sum := by
  induction l generalizing acc with
  | nil => simp [buildPrefixSum]
  | cons x xs ih =>
    simp only [buildPrefixSum, List.getLastD_cons, List.map_cons, List.sum_cons]
    rw [ih]
    omega

/-- Clamped weight sums of nonempty lists are positive. -/
theorem sum_clamped_pos (l : List UpstreamInstance) (h : l ≠ []) :
    0 < (l.map (fun i => max i.weight 1)).sum := by
  rcases l with _ | ⟨x, xs⟩
  · exact absurd rfl h
  · simp only [List.map_cons, List.sum_cons]
    omega

/-- C2 counterexample: on the one-node list whose only node has configured
weight 0, every one of the four balancers' `select` still returns a node
(the weight is clamped to 1 in the prefix sums / score denominators), while
the claim demands the empty-list outcome `none`. -/
theorem C2_counterexample :
    zeroWeightInst.weight = 0
    ∧ ((rrEmpty.update_instances [zeroWeightInst]).do_select).1.isSome = true
    ∧ ((randEmpty.update_instances [zeroWeightInst]).do_select 0).isSome = true
    ∧ ((lrEmpty.update_instances [zeroWeightInst]).do_select 0 0).isSome = true
    ∧ ((peEmpty.update_instances [zeroWeightInst]).do_select 0 0).isSome = true := by
  decide

/-- C2 amended: for each of the four balancer kinds, `select` after
`update_instances(instances)` returns no node exactly when the instance
list is empty; the all-weights-zero list behaves like any nonempty list
because every weight is clamped to ≥ 1 (for the prefix-sum balancers the
installed total weight is the clamped sum, never 0 on nonempty input). -/
theorem C2_select_none_iff_empty :
    (∀ (st : RoundRobinState) (inst : List UpstreamInstance),
      (st.update_instances inst).total_weight
          = (inst.map (fun i => max i.weight 1)).sum
      ∧ (((st.update_instances inst).do_select).1 = none ↔ inst = []))
    ∧ (∀ (st : RandomState) (inst : List UpstreamInstance) (r : Nat),
        (st.update_instances inst).do_select r = none ↔ inst = [])
    ∧ (∀ (st : LeastRequestState) (inst : List UpstreamInstance) (r1 r2 : Nat),
        (st.update_instances inst).do_select r1 r2 = none ↔ inst = [])
    ∧ (∀ (st : PeakEwmaState) (inst : List UpstreamInstance) (r1 r2 : Nat),
        (st.update_instances inst).do_select r1 r2 = none ↔ inst = []) := by
  have keyPrefix : ∀ (inst : List UpstreamInstance) (target : Nat),
      inst ≠ [] → target < (buildPrefixSum inst 0).getLastD 0 →
      partitionPoint (fun s => s ≤ target) (buildPrefixSum inst 0) < inst.length := by
    intro inst target hne htarget
    have hlen : (buildPrefixSum inst 0).length = inst.length :=
      buildPrefixSum_length inst 0
    have hnil : buildPrefixSum inst 0 ≠ [] := by
      intro hcon
      apply hne
      have := hlen
      rw [hcon] at this
      simpa using (List.length_eq_zero.1 this.symm)
    have hmem := getLastD_mem_of_ne_nil (buildPrefixSum inst 0) 0 hnil
    have hlt := partitionPoint_lt_length (fun s => s ≤ target) (buildPrefixSum inst 0)
      ⟨(buildPrefixSum inst 0).getLastD 0, hmem,
        by simp only [decide_eq_false_iff_not, not_le]; omega⟩
    omega
  refine ⟨?_, ?_, ?_, ?_⟩
  · intro st inst
    have htot : (st.update_instances inst).total_weight
        = (inst.map (fun i => max i.weight 1)).sum := by
      simpa [RoundRobinState.update_instances] using buildPrefixSum_getLastD inst 0
    refine ⟨htot, ?_⟩
    constructor
    · intro hnone
      by_contra hne
      have hpos : 0 < (st.update_instances inst).total_weight :=
        htot ▸ sum_clamped_pos inst hne
      have htw : (st.update_instances inst).total_weight ≠ 0 := by omega
      simp only [RoundRobinState.do_select, htw, if_false, reduceIte] at hnone
      have hmod : st.counter % (st.update_instances inst).total_weight
          < (st.update_instances inst).total_weight := Nat.mod_lt _ hpos
      have hidx := keyPrefix inst
        (st.counter % (st.update_instances inst).total_weight) hne
        (by
          have : (st.update_instances inst).total_weight
              = (buildPrefixSum inst 0).getLastD 0 := by
            simp [RoundRobinState.update_instances]
          omega)
      have hlen := List.get?_eq_none.1 hnone
      simp only [RoundRobinState.update_instances] at hlen hidx
      omega
    · rintro rfl
      simp [RoundRobinState.update_instances, buildPrefixSum,
        RoundRobinState.do_select]
  · intro st inst r
    constructor
    · intro hnone
      by_contra hne
      have htot : (st.update_instances inst).total_weight
          = (inst.map (fun i => max i.weight 1)).sum := by
        simpa [RandomState.update_instances] using buildPrefixSum_getLastD inst 0
      have hpos : 0 < (st.update_instances inst).total_weight :=
        htot ▸ sum_clamped_pos inst hne
      have htw : (st.update_instances inst).total_weight ≠ 0 := by omega
      simp only [RandomState.do_select, htw, if_false, reduceIte] at hnone
      have hmod : r % (st.update_instances inst).total_weight
          < (st.update_instances inst).total_weight := Nat.mod_lt _ hpos
      have hidx := keyPrefix inst (r % (st.update_instances inst).total_weight) hne
        (by
          have : (st.update_instances inst).total_weight
              = (buildPrefixSum inst 0).getLastD 0 := by
            simp [RandomState.update_instances]
          omega)
      have hlen := List.get?_eq_none.1 hnone
      simp only [RandomState.update_instances] at hlen hidx
      omega
    · rintro rfl
      simp [RandomState.update_instances, buildPrefixSum, RandomState.do_select]
  · intro st inst r1 r2
    constructor
    · intro hnone
      by_contra hne
      rcases hmatch : (st.update_instances inst).instances with _ | ⟨a, tail⟩
      · apply hne
        have : inst.length = 0 := by
          have := congrArg List.length hmatch
          simpa [LeastRequestState.update_instances] using this
        exact List.length_eq_zero.1 this
      rcases htail : tail with _ | ⟨b, rest⟩
      · rw [htail] at hmatch
        simp [LeastRequestState.do_select, hmatch] at hnone
      · rw [htail] at hmatch
        have hlen2 : 2 ≤ (st.update_instances inst).instances.length := by
          rw [hmatch]; simp
        have hi1 : r1 % (st.update_instances inst).instances.length
            < (st.update_instances inst).instances.length := Nat.mod_lt _ (by omega)
        have hi2 : (r1 % (st.update_instances inst).instances.length +
              (1 + r2 % ((st.update_instances inst).instances.length - 1)))
              % (st.update_instances inst).instances.length
            < (st.update_instances inst).instances.length := Nat.mod_lt _ (by omega)
        simp only [LeastRequestState.do_select, hmatch] at hnone
        rw [← hmatch] at hnone
        rcases hg1 : (st.update_instances inst).instances.get?
            (r1 % (st.update_instances inst).instances.length) with _ | v1
        · have := List.get?_eq_none.1 hg1; omega
        rcases hg2 : (st.update_instances inst).instances.get?
            ((r1 % (st.update_instances inst).instances.length +
              (1 + r2 % ((st.update_instances inst).instances.length - 1)))
              % (st.update_instances inst).instances.length) with _ | v2
        · have := List.get?_eq_none.1 hg2; omega
        rw [hg1, hg2] at hnone
        simp at hnone
    · rintro rfl
      simp [LeastRequestState.update_instances, LeastRequestState.do_select]
  · intro st inst r1 r2
    constructor
    · intro hnone
      by_contra hne
      rcases hmatch : (st.update_instances inst).instances with _ | ⟨a, tail⟩
      · apply hne
        have : inst.length = 0 := by
          have := congrArg List.length hmatch
          simpa [PeakEwmaState.update_instances] using this
        exact List.length_eq_zero.1 this
      rcases htail : tail with _ | ⟨b, rest⟩
      · rw [htail] at hmatch
        simp [PeakEwmaState.do_select, hmatch] at hnone
      · rw [htail] at hmatch
        have hlen2 : 2 ≤ (st.update_instances inst).instances.length := by
          rw [hmatch]; simp
        have hi1 : r1 % (st.update_instances inst).instances.length
            < (st.update_instances inst).instances.length := Nat.mod_lt _ (by omega)
        have hi2 : (r1 % (st.update_instances inst).instances.length +
              (1 + r2 % ((st.update_instances inst).instances.length - 1)))
              % (st.update_instances inst).instances.length
            < (st.update_instances inst).instances.length := Nat.mod_lt _ (by omega)
        simp only [PeakEwmaState.do_select, hmatch] at hnone
        rw [← hmatch] at hnone
        rcases hg1 : (st.update_instances inst).instances.get?
            (r1 % (st.update_instances inst).instances.length) with _ | v1
        · have := List.get?_eq_none.1 hg1; omega
        rcases hg2 : (st.update_instances inst).instances.get?
            ((r1 % (st.update_instances inst).instances.length +
              (1 + r2 % ((st.update_instances inst).instances.length - 1)))
              % (st.update_instances inst).instances.length) with _ | v2
        · have := List.get?_eq_none.1 hg2; omega
        rw [hg1, hg2] at hnone
        simp at hnone
    · rintro rfl
      simp [PeakEwmaState.update_instances, PeakEwmaState.do_select]

/-! ## Claim C6 — counters across `update_instances` -/

/-- `find?` commutes with `map` when the mapped function preserves the
predicate (`q (g x) = p x`). -/
theorem find?_map_comm {α β : Type} (g : α → β) (q : β → Bool) (p : α → Bool)
    (hg : ∀ x, q (g x) = p x) (l : List α) :
    (l.map g).find? q = (l.find? p).map g := by
  induction l with
  | nil => simp
  | cons a as ih =>
    by_cases hp : p a
    · rw [List.map_cons, List.find?_cons_of_pos _ (by rw [hg a]; exact hp),
        List.find?_cons_of_pos _ hp, Option.map_some']
    · rw [List.map_cons, List.find?_cons_of_neg _ (by rw [hg a]; simpa using hp),
        List.find?_cons_of_neg _ (by simpa using hp), ih]

/-- C6 counterexample: the round-robin balancer does not carry the
active-request counter across `update_instances`. The endpoint `a:80`
appears in the old list (counter value 5) and in the new list (built from
its `UpstreamNode` as the `LoadBalancer::update_instances` wrapper does,
with a fresh zero counter); immediately after the refresh, its counter
reads 0 ≠ 5. -/
theorem C6_counterexample :
    (((rrEmpty.update_instances [busyInstA]).instances.find?
        (fun i => i.endpoint = "a:80")).map (fun i => i.active_requests)
      = some 5)
    ∧ ((((rrEmpty.update_instances [busyInstA]).update_instances
          [instanceFromNode nodeA "a:80"]).instances.find?
        (fun i => i.endpoint = "a:80")).map (fun i => i.active_requests)
      = some 0)
    ∧ (5 : Nat) ≠ 0 := by
  decide

/-- C6 amended: the carry across `update_instances` holds for the two
balancers that implement it — P2C least-request (active-request counter)
and P2C peak-EWMA (active-request counter and EWMA latency). For any
endpoint present in both the old state and the new instance list, the
refreshed entry holds exactly the old counter (and EWMA) value. (Round
robin and weighted random install the given instances unchanged, so a
node's counter after their refresh is the new list's — fresh zero — value,
as the counterexample shows.) -/
theorem C6_least_request_peak_ewma_carry :
    (∀ (st : LeastRequestState) (newList : List UpstreamInstance) (k : String)
        (e i : UpstreamInstance),
      st.instances.find? (fun x => x.endpoint = k) = some e →
      newList.find? (fun x => x.endpoint = k) = some i →
      ((st.update_instances newList).instances.find?
          (fun x => x.endpoint = k)).map (fun x => x.active_requests)
        = some e.active_requests)
    ∧ (∀ (st : PeakEwmaState) (newList : List UpstreamInstance) (k : String)
        (e : InstanceWithLatency) (i : UpstreamInstance),
      st.instances.find? (fun x => x.inst.endpoint = k) = some e →
      newList.find? (fun x => x.endpoint = k) = some i →
      ((st.update_instances newList).instances.find?
          (fun x => x.inst.endpoint = k)).map
          (fun x => (x.inst.active_requests, x.ewma_latency_ns))
        = some (e.inst.active_requests, e.ewma_latency_ns)) := by
  constructor
  · intro st newList k e i hOld hNew
    simp only [LeastRequestState.update_instances]
    rw [find?_map_comm _ _ (fun x => x.endpoint = k)
      (by
        intro x
        rcases hfind : st.instances.find? (fun e0 => e0.endpoint = x.endpoint)
          with _ | ex <;> simp [hfind])]
    rw [hNew]
    have hik : i.endpoint = k := by simpa using List.find?_some hNew
    simp only [Option.map_some']
    rw [hik, hOld]
  · intro st newList k e i hOld hNew
    simp only [PeakEwmaState.update_instances]
    rw [find?_map_comm _ _ (fun x => x.endpoint = k)
      (by
        intro x
        rcases hfind : st.instances.find? (fun e0 => e0.inst.endpoint = x.endpoint)
          with _ | ex <;> simp [hfind])]
    rw [hNew]
    have hik : i.endpoint = k := by simpa using List.find?_some hNew
    simp only [Option.map_some']
    rw [hik, hOld]

/-- Witness for C6's amended theorem: a least-request balancer holding
`a:80` with 5 active requests refreshed with a fresh `a:80` instance, and a
peak-EWMA balancer in the matching situation. -/
theorem C6_least_request_peak_ewma_carry_witness :
    (((LeastRequestState.mk [busyInstA]).update_instances
        [instanceFromNode nodeA "a:80"]).instances.find?
        (fun x => x.endpoint = "a:80")).map (fun x => x.active_requests)
      = some 5 :=
  C6_least_request_peak_ewma_carry.1 (LeastRequestState.mk [busyInstA])
    [instanceFromNode nodeA "a:80"] "a:80" busyInstA
    (instanceFromNode nodeA "a:80") (by decide) (by decide)


/-! ## Claim C9 — token bucket starts full -/

/-- `find?` on a list extended with a binding for an absent key. -/
theorem find?_append_fresh {α : Type} (m : List (String × α)) (k : String) (v : α)
    (h : m.find? (fun e => e.1 = k) = none) :
    (m ++ [(k, v)]).find? (fun e => e.1 = k) = some (k, v) := by
  induction m with
  | nil => simp
  | cons a as ih =>
    have hall := List.find?_eq_none.1 h
    have ha : ¬(a.1 = k) := by simpa using hall a (List.mem_cons_self a as)
    rw [List.cons_append, List.find?_cons_of_neg _ (by simpa using ha)]
    exact ih (List.find?_eq_none.2 (fun x hx => hall x (List.mem_cons_of_mem a hx)))

/-- Appending a binding for an absent key makes lookup find it. -/
theorem assocLookup_append_fresh {α : Type} (m : List (String × α)) (k : String)
    (v : α) (h : assocLookup m k = none) :
    assocLookup (m ++ [(k, v)]) k = some v := by
  have hf : m.find? (fun e => e.1 = k) = none := by
    simpa [assocLookup] using h
  simp [assocLookup, find?_append_fresh m k v hf]

/-- C9 counterexample: with configured rate 0.5 (and one instance), the
claimed initial token count `(rate + burst) × 1 000 000 = 1 500 000` is not
what the code computes — the bucket is created with
`max_tokens = (rate as u64 + burst) × 1 000 000 = 1 000 000`, the rate
being truncated to 0 before the addition. -/
theorem C9_counterexample :
    ((assocLookup ((RateLimiter.mk [] [] 1).check_token_bucket tbHalfRateConfig
          "k" 0).2.buckets "k").map (fun b => b.inner.max_tokens)
      = some 1000000)
    ∧ ((tbHalfRateConfig.rate.getD (Frac.ofNat 100)).divNat
        (RateLimiter.mk [] [] 1).current_instance_count).toRat = 1 / 2
    ∧ ¬((1000000 : ℚ) = (1 / 2 + 1) * 1000000) := by
  refine ⟨by decide, ?_, by norm_num⟩
  norm_num [tbHalfRateConfig, Frac.divNat, Frac.toRat,
    RateLimiter.current_instance_count, Frac.ofNat]

/-- C9 amended: a token bucket created on the first check of a key starts
full at `max_tokens = (⌊rate⌋ + burst) × 1 000 000` (the f64 rate is
truncated to an integer before the addition) with `burst` clamped to ≥ 1,
so the first `try_acquire` on a fresh key always succeeds; and, at a fixed
instant, a bucket whose refill stamp is current yields exactly
`tokens / 1 000 000` successful acquisitions among any `m ≥` that many
tries — for the fresh bucket, `⌊rate⌋ + burst` of them — regardless of the
refill rate. -/
theorem C9_bucket_starts_full (cfg : RateLimitConfig) (key : String) (now : Nat)
    (rl : RateLimiter) (hfresh : assocLookup rl.buckets key = none) :
    ((rl.check_token_bucket cfg key now).1 = true
    ∧ (assocLookup (rl.check_token_bucket cfg key now).2.buckets key).map
        (fun b => b.inner.max_tokens)
      = some ((((cfg.rate.getD (Frac.ofNat 100)).divNat
            rl.current_instance_count).truncU64
          + max (cfg.burst.getD ((cfg.rate.getD (Frac.ofNat 100)).divNat
            rl.current_instance_count).truncU64) 1) * PRECISION))
    ∧ (∀ (b : Bucket) (m : Nat), b.inner.last_refill = now →
        b.acquireCount now m = min m (b.inner.tokens / PRECISION)) := by
  have hcap : 1 ≤ (((cfg.rate.getD (Frac.ofNat 100)).divNat
      rl.current_instance_count).truncU64
      + max (cfg.burst.getD ((cfg.rate.getD (Frac.ofNat 100)).divNat
        rl.current_instance_count).truncU64) 1) := by omega
  have hge : PRECISION ≤ (((cfg.rate.getD (Frac.ofNat 100)).divNat
      rl.current_instance_count).truncU64
      + max (cfg.burst.getD ((cfg.rate.getD (Frac.ofNat 100)).divNat
        rl.current_instance_count).truncU64) 1) * PRECISION := by
    calc PRECISION = 1 * PRECISION := (Nat.one_mul _).symm
    _ ≤ _ := Nat.mul_le_mul_right _ hcap
  refine ⟨⟨?_, ?_⟩, ?_⟩
  · simp only [RateLimiter.check_token_bucket, hfresh, Bucket.try_acquire,
      Nat.sub_self, lt_irrefl, if_false, reduceIte]
    rw [if_pos hge]
  · simp only [RateLimiter.check_token_bucket, hfresh, Bucket.try_acquire,
      Nat.sub_self, lt_irrefl, if_false, reduceIte]
    rw [if_pos hge]
    simp only
    rw [assocLookup_append_fresh _ _ _ hfresh]
    simp
  · intro b m
    induction m generalizing b with
    | zero => intro _; simp [Bucket.acquireCount]
    | succ m ih =>
      obtain ⟨⟨tk, lrf, rpu, mxt⟩, la⟩ := b
      intro hlr
      simp only at hlr
      subst hlr
      by_cases hok : PRECISION ≤ tk
      · have hstep : (Bucket.mk (BucketInner.mk tk lrf rpu mxt) la).try_acquire lrf
            = (true, Bucket.mk (BucketInner.mk (tk - PRECISION) lrf rpu mxt) la) := by
          simp [Bucket.try_acquire, hok]
        simp only [Bucket.acquireCount, hstep]
        have hrec := ih (Bucket.mk (BucketInner.mk (tk - PRECISION) lrf rpu mxt) la) rfl
        rw [hrec]
        have hdiv : tk / PRECISION = (tk - PRECISION) / PRECISION + 1 :=
          Nat.div_eq_sub_div (by norm_num [PRECISION]) hok
        simp only [if_true]
        omega
      · have hstep : (Bucket.mk (BucketInner.mk tk lrf rpu mxt) la).try_acquire lrf
            = (false, Bucket.mk (BucketInner.mk tk lrf rpu mxt) la) := by
          simp [Bucket.try_acquire, hok]
        simp only [Bucket.acquireCount, hstep]
        rw [ih _ rfl]
        have h0 : tk / PRECISION = 0 := Nat.div_eq_of_lt (by omega)
        simp [h0]

/-- Witness for C9's amended theorem: the default-rate config on a fresh
key (first acquire succeeds), and the acquisition count of a current
two-token bucket. -/
theorem C9_bucket_starts_full_witness :
    ((RateLimiter.mk [] [] 1).check_token_bucket tbConfig "k" 0).1 = true
    ∧ (Bucket.mk (BucketInner.mk 2000000 0 (Frac.ofNat 0) 2000000) 0).acquireCount 0 5
      = min 5 ((2000000 : Nat) / PRECISION) :=
  ⟨(C9_bucket_starts_full tbConfig "k" 0 (RateLimiter.mk [] [] 1) (by decide)).1.1,
   (C9_bucket_starts_full tbConfig "k" 0 (RateLimiter.mk [] [] 1) (by decide)).2
     (Bucket.mk (BucketInner.mk 2000000 0 (Frac.ofNat 0) 2000000) 0) 5 rfl⟩

/-! ## Claim C7 — per-attempt timeout and global deadline -/

/-- Invariant of the `phase_upstream` loop: starting within the deadline,
the loop never exceeds it, and every attempt it issues starts with positive
remaining budget and uses exactly that remaining budget as its timeout. -/
theorem runAttempts_within_deadline (mR : Nat) (cfg : Option RetryConfig)
    (specs : Nat → AttemptSpec) (avail : Nat → Bool) (deadline : Nat) :
    ∀ (fuel attempt now attempts retries : Nat) (lastError : Option Nat)
      (log : List (Nat × Nat)),
      now ≤ deadline → (∀ e ∈ log, 0 < e.1 ∧ e.2 = e.1) →
      (runAttempts mR cfg specs avail deadline fuel attempt now attempts retries
          lastError log).elapsed ≤ deadline
      ∧ ∀ e ∈ (runAttempts mR cfg specs avail deadline fuel attempt now attempts
          retries lastError log).attemptLog, 0 < e.1 ∧ e.2 = e.1 := by
  intro fuel
  induction fuel with
  | zero =>
    intro attempt now attempts retries lastError log hnow hlog
    exact ⟨hnow, hlog⟩
  | succ fuel ih =>
    intro attempt now attempts retries lastError log hnow hlog
    by_cases h0 : deadline - now = 0
    · simp only [runAttempts, h0, reduceIte]
      exact ⟨hnow, hlog⟩
    · have hlog2 : ∀ e ∈ log ++ [(deadline - now, deadline - now)],
          0 < e.1 ∧ e.2 = e.1 := by
        intro e he
        rcases List.mem_append.1 he with h | h
        · exact hlog e h
        · simp only [List.mem_singleton] at h
          subst h
          exact ⟨by omega, rfl⟩
      simp only [runAttempts, h0, reduceIte]
      by_cases hav : avail attempt
      · simp only [hav, Bool.not_true, Bool.false_eq_true, if_false, reduceIte]
        split
        next hdur =>
          rcases hoc : (specs attempt).outcome with status | _
          · simp only [hoc]
            split
            next hr => exact ih _ _ _ _ _ _ (by omega) hlog2
            next hr =>
              refine ⟨?_, hlog2⟩
              show now + (specs attempt).dur ≤ deadline
              omega
          · simp only [hoc]
            split
            next hr => exact ih _ _ _ _ _ _ (by omega) hlog2
            next hr =>
              refine ⟨?_, hlog2⟩
              show now + (specs attempt).dur ≤ deadline
              omega
        next hdur =>
          split
          next hr => exact ih _ _ _ _ _ _ (by omega) hlog2
          next hr =>
            refine ⟨?_, hlog2⟩
            show now + (deadline - now) ≤ deadline
            omega
      · simp only [hav, Bool.not_false, if_pos, reduceIte]
        exact ⟨hnow, hlog⟩

/-- C7: for every run of the upstream phase, each attempt's per-attempt
timeout equals the remaining global deadline at the attempt's start (the
deadline being `send_timeout + read_timeout` from the start of the loop),
no attempt starts with zero remaining budget, and the total time consumed
across the initial attempt and all retries never exceeds
`send_timeout + read_timeout`. (Time advances only during awaited upstream
attempts, each cut off at its timeout — the modelling of
`tokio::time::timeout(remaining, request)`.) -/
theorem C7_upstream_deadline_budget (retryCfg : Option RetryConfig)
    (specs : Nat → AttemptSpec) (nodeAvail : Nat → Bool) (send read : Nat) :
    (phase_upstream retryCfg specs nodeAvail send read).elapsed ≤ send + read
    ∧ ∀ e ∈ (phase_upstream retryCfg specs nodeAvail send read).attemptLog,
        0 < e.1 ∧ e.2 = e.1 :=
  runAttempts_within_deadline ((retryCfg.map (fun r => r.count)).getD 0) retryCfg
    specs nodeAvail (send + read) (((retryCfg.map (fun r => r.count)).getD 0) + 1)
    0 0 0 0 none [] (by omega) (by simp)

/-- Witness for C7 on a concrete run (two 5-tick attempts under a 12-tick
budget): the elapsed bound, and the logged first attempt (remaining 12,
timeout 12). -/
theorem C7_upstream_deadline_budget_witness :
    (phase_upstream (some scenario3Retry) (fun _ => ⟨5, .response 503⟩)
        (fun _ => true) 6 6).elapsed ≤ 6 + 6
    ∧ (0 < ((12, 12) : Nat × Nat).1 ∧ ((12, 12) : Nat × Nat).2 = ((12, 12) : Nat × Nat).1) :=
  ⟨(C7_upstream_deadline_budget (some scenario3Retry)
      (fun _ => ⟨5, .response 503⟩) (fun _ => true) 6 6).1,
   (C7_upstream_deadline_budget (some scenario3Retry)
      (fun _ => ⟨5, .response 503⟩) (fun _ => true) 6 6).2 (12, 12) (by decide)⟩

/-! ## Claim C3 — wildcard host pattern order -/

/-- C3 counterexample: the wildcard-host patterns are grouped through a
`HashMap` whose iteration order is unspecified, so configuration order is
not preserved. Both `*.a.com` (configured first, route `r1`) and `*.com`
(route `r2`) match the host `x.a.com`; building the table with the
reversed grouping order — a possible `HashMap` iteration order — makes the
lookup return `r2`, while the claim demands the first-configured pattern's
route `r1` (which the identity order happens to produce). -/
theorem C3_counterexample :
    host_matches "x.a.com" "*.a.com" = true
    ∧ host_matches "x.a.com" "*.com" = true
    ∧ ((RouteTable.new overlappingWildcardDomains List.reverse noRegex).match_route
        "x.a.com" "/foo" "GET" []).map (fun r => r.name) = some ("r2")
    ∧ ((RouteTable.new overlappingWildcardDomains id noRegex).match_route
        "x.a.com" "/foo" "GET" []).map (fun r => r.name) = some ("r1")
    ∧ ("r2" : String) ≠ "r1" := by
  decide

/-- C3 amended: during route-table lookup for a host with no exact-host
match, the wildcard patterns are tried in the order of the table's built
`wildcard_hosts` list — the `HashMap` grouping order, not the configuration
order — and the first pattern that both matches the host and yields a route
wins: if every earlier pattern either fails the host match or yields no
route, and pattern `p` matches with route `r`, the lookup returns `r`. -/
theorem C3_wildcard_first_match_wins :
    (∀ (ws₁ ws₂ : List (String × RadixTree)) (p : String × RadixTree)
        (req_host uri method_upper : String) (headers : List (String × String))
        (r : CompiledRoute),
      (∀ q ∈ ws₁, host_matches req_host q.1 = false
          ∨ match_in_tree q.2 uri method_upper headers = none) →
      host_matches req_host p.1 = true →
      match_in_tree p.2 uri method_upper headers = some r →
      scanWildcardHosts (ws₁ ++ p :: ws₂) req_host uri method_upper headers
        = some r)
    ∧ (∀ (tbl : RouteTable) (host uri method : String)
        (headers : List (String × String)) (r : CompiledRoute),
      (match (tbl.exact_hosts.find? (fun e => e.1 =
          lowerStr (String.mk ((splitOnChar ':' host.data).headD host.data)))).map
          (fun e => e.2) with
        | some tree => match_in_tree tree uri (upperStr method) headers
        | none => none) = none →
      scanWildcardHosts tbl.wildcard_hosts
        (String.mk ((splitOnChar ':' host.data).headD host.data)) uri
        (upperStr method) headers = some r →
      tbl.match_route host uri method headers = some r) := by
  constructor
  · intro ws₁ ws₂ p req_host uri method_upper headers r hskip hp hr
    induction ws₁ with
    | nil =>
      simp only [List.nil_append, scanWildcardHosts, List.findSome?_cons, hp,
        if_true, hr]
    | cons q qs ih =>
      have hq := hskip q (List.mem_cons_self q qs)
      have hrest : ∀ x ∈ qs, host_matches req_host x.1 = false
          ∨ match_in_tree x.2 uri method_upper headers = none :=
        fun x hx => hskip x (List.mem_cons_of_mem q hx)
      have hqnone : (if host_matches req_host q.1 then
          match_in_tree q.2 uri method_upper headers else none) = none := by
        rcases hq with h | h
        · simp [h]
        · simp [h]
      simp only [List.cons_append, scanWildcardHosts, List.findSome?_cons] at ih ⊢
      rw [hqnone]
      exact ih hrest
  · intro tbl host uri method headers r hexact hscan
    simp only [RouteTable.match_route]
    rw [hexact, hscan]

/-- Witness for C3's amended theorem: a singleton wildcard list whose
pattern matches, and the demo table (identity grouping order) resolving
through the wildcard scan. -/
theorem C3_wildcard_first_match_wins_witness :
    scanWildcardHosts
        ([] ++ ("*.a.com", buildTree noRegex [plainRoute "r1" "/*"]) :: [])
        "x.a.com" "/foo" "GET" []
      = some (CompiledRoute.mk "r1" "/*" 0 [] [])
    ∧ (RouteTable.new overlappingWildcardDomains id noRegex).match_route
        "x.a.com" "/foo" "GET" []
      = some (CompiledRoute.mk "r1" "/*" 0 [] []) :=
  ⟨C3_wildcard_first_match_wins.1 [] []
      ("*.a.com", buildTree noRegex [plainRoute "r1" "/*"])
      "x.a.com" "/foo" "GET" [] (CompiledRoute.mk "r1" "/*" 0 [] [])
      (fun q hq => absurd hq (List.not_mem_nil q)) (by decide) (by rfl),
   C3_wildcard_first_match_wins.2
      (RouteTable.new overlappingWildcardDomains id noRegex)
      "x.a.com" "/foo" "GET" [] (CompiledRoute.mk "r1" "/*" 0 [] [])
      (by rfl) (by rfl)⟩

/-! ## Claim C4 — rate-limit map size cap -/

/-- `insertSorted` permutes consing. -/
theorem insertSorted_perm (le : α → α → Bool) (x : α) (l : List α) :
    (insertSorted le x l).Perm (x :: l) := by
  induction l with
  | nil => simp [insertSorted]
  | cons y ys ih =>
    simp only [insertSorted]
    split
    · exact List.Perm.refl _
    · exact List.Perm.trans (ih.cons y) (List.Perm.swap x y ys)

/-- `sortByLe` is a permutation (all `sort_unstable_by` guarantees used). -/
theorem sortByLe_perm (le : α → α → Bool) (l : List α) :
    (sortByLe le l).Perm l := by
  induction l with
  | nil => simp [sortByLe]
  | cons x xs ih =>
    exact List.Perm.trans (insertSorted_perm le x (sortByLe le xs)) (ih.cons x)

/-- Removing one present key from a map with pairwise-distinct keys drops
exactly one entry. -/
theorem filter_remove_key_length {α : Type} (m : List (String × α)) (k : String)
    (hnodup : (m.map Prod.fst).Nodup) (hk : k ∈ m.map Prod.fst) :
    (m.filter (fun e => e.1 ≠ k)).length = m.length - 1 := by
  induction m with
  | nil => simp at hk
  | cons a as ih =>
    simp only [List.map_cons, List.nodup_cons] at hnodup
    by_cases hak : a.1 = k
    · have hfilter : as.filter (fun e => e.1 ≠ k) = as := by
        apply List.filter_eq_self.2
        intro e he
        have h1 : e.1 ∈ as.map Prod.fst := List.mem_map_of_mem Prod.fst he
        have h2 : e.1 ≠ k := by
          intro hek
          exact hnodup.1 (hak ▸ hek ▸ h1)
        simpa using h2
      rw [List.filter_cons, if_neg (by simp [hak]), hfilter]
      simp
    · have hkas : k ∈ as.map Prod.fst := by
        rcases List.mem_map.1 hk with ⟨e, he, hek⟩
        rcases List.mem_cons.1 he with rfl | hin
        · exact absurd hek hak
        · exact hek ▸ List.mem_map_of_mem Prod.fst hin
      have hlen : 1 ≤ as.length := by
        rcases List.mem_map.1 hkas with ⟨e, he, _⟩
        exact List.length_pos.2 (List.ne_nil_of_mem he)
      rw [List.filter_cons, if_pos (by simp [hak])]
      have := ih hnodup.2 hkas
      simp only [List.length_cons]
      omega

/-- Keys of a filtered map form a sublist of the original keys. -/
theorem filter_keys_sublist {α : Type} (m : List (String × α)) (p : String × α → Bool) :
    ((m.filter p).map Prod.fst).Sublist (m.map Prod.fst) :=
  (List.filter_sublist m).map Prod.fst

/-- A surviving key stays a key of the filtered map. -/
theorem mem_filter_keys_of_ne {α : Type} (m : List (String × α)) (k k1 : String)
    (hk : k ∈ m.map Prod.fst) (hne : k ≠ k1) :
    k ∈ (m.filter (fun e => e.1 ≠ k1)).map Prod.fst := by
  rcases List.mem_map.1 hk with ⟨e, he, hek⟩
  exact hek ▸ List.mem_map_of_mem Prod.fst
    (List.mem_filter.2 ⟨he, by simp [hek ▸ hne]⟩)

/-- Removing a list of pairwise-distinct present keys shrinks a
distinct-key map by exactly that many entries. -/
theorem removeKeys_length {α : Type} (ks : List String) :
    ∀ (m : List (String × α)), ks.Nodup → (∀ k ∈ ks, k ∈ m.map Prod.fst) →
    (m.map Prod.fst).Nodup →
    (removeKeys m ks).length = m.length - ks.length := by
  induction ks with
  | nil => intro m _ _ _; simp [removeKeys]
  | cons k1 ks ih =>
    intro m hks hmem hnodup
    simp only [List.nodup_cons] at hks
    have hk1 : k1 ∈ m.map Prod.fst := hmem k1 (List.mem_cons_self k1 ks)
    have hpos : 1 ≤ m.length := by
      rcases List.mem_map.1 hk1 with ⟨e, he, _⟩
      exact List.length_pos.2 (List.ne_nil_of_mem he)
    have hstep : removeKeys m (k1 :: ks)
        = removeKeys (m.filter (fun e => e.1 ≠ k1)) ks := rfl
    rw [hstep]
    have hrest := ih (m.filter (fun e => e.1 ≠ k1)) hks.2
      (fun k hkks => mem_filter_keys_of_ne m k k1 (hmem k (List.mem_cons_of_mem k1 hkks))
        (fun hkk1 => hks.1 (hkk1 ▸ hkks)))
      ((filter_keys_sublist m _).nodup hnodup)
    rw [hrest, filter_remove_key_length m k1 hnodup hk1]
    simp only [List.length_cons]
    omega

/-- After `forceEvictEntries`, a distinct-key map holds at most
`MAX_ENTRIES` entries. -/
theorem forceEvictEntries_le {α : Type} (lastAccess : α → Nat) (m : List (String × α))
    (now : Nat) (hnodup : (m.map Prod.fst).Nodup) :
    (forceEvictEntries lastAccess m now).length ≤ MAX_ENTRIES := by
  by_cases hov : m.length - MAX_ENTRIES = 0
  · simp only [forceEvictEntries, hov, reduceIte]
    omega
  · simp only [forceEvictEntries, hov, reduceIte]
    have hperm : (sortByLe (fun a b => b.2 ≤ a.2)
        (m.map (fun r => (r.1, now - lastAccess r.2)))).Perm
        (m.map (fun r => (r.1, now - lastAccess r.2))) :=
      sortByLe_perm _ _
    have hkeysperm : ((sortByLe (fun a b => b.2 ≤ a.2)
        (m.map (fun r => (r.1, now - lastAccess r.2)))).map Prod.fst).Perm
        ((m.map (fun r => (r.1, now - lastAccess r.2))).map Prod.fst) :=
      hperm.map Prod.fst
    have hkeyseq : (m.map (fun r => (r.1, now - lastAccess r.2))).map Prod.fst
        = m.map Prod.fst := by
      simp
    have hsortlen : (sortByLe (fun a b => b.2 ≤ a.2)
        (m.map (fun r => (r.1, now - lastAccess r.2)))).length = m.length := by
      rw [hperm.length_eq]
      simp
    have htakekeys : (((sortByLe (fun a b => b.2 ≤ a.2)
          (m.map (fun r => (r.1, now - lastAccess r.2)))).take
            (m.length - MAX_ENTRIES)).map Prod.fst).Sublist
        ((sortByLe (fun a b => b.2 ≤ a.2)
          (m.map (fun r => (r.1, now - lastAccess r.2)))).map Prod.fst) :=
      (List.take_sublist _ _).map Prod.fst
    have hremnodup : (((sortByLe (fun a b => b.2 ≤ a.2)
          (m.map (fun r => (r.1, now - lastAccess r.2)))).take
            (m.length - MAX_ENTRIES)).map Prod.fst).Nodup :=
      htakekeys.nodup (hkeysperm.nodup_iff.2 (hkeyseq ▸ hnodup))
    have hremmem : ∀ k ∈ ((sortByLe (fun a b => b.2 ≤ a.2)
          (m.map (fun r => (r.1, now - lastAccess r.2)))).take
            (m.length - MAX_ENTRIES)).map Prod.fst, k ∈ m.map Prod.fst := by
      intro k hkmem
      have h1 : k ∈ (sortByLe (fun a b => b.2 ≤ a.2)
          (m.map (fun r => (r.1, now - lastAccess r.2)))).map Prod.fst :=
        htakekeys.mem hkmem
      have h2 := hkeysperm.mem_iff.1 h1
      exact hkeyseq ▸ h2
    have hremlen : (((sortByLe (fun a b => b.2 ≤ a.2)
          (m.map (fun r => (r.1, now - lastAccess r.2)))).take
            (m.length - MAX_ENTRIES)).map Prod.fst).length
        = m.length - MAX_ENTRIES := by
      simp only [List.length_map, List.length_take, hsortlen]
      omega
    show (removeKeys m (((sortByLe (fun a b => b.2 ≤ a.2)
        (m.map (fun r => (r.1, now - lastAccess r.2)))).take
          (m.length - MAX_ENTRIES)).map Prod.fst)).length ≤ MAX_ENTRIES
    have hfinal := removeKeys_length (((sortByLe (fun a b => b.2 ≤ a.2)
        (m.map (fun r => (r.1, now - lastAccess r.2)))).take
          (m.length - MAX_ENTRIES)).map Prod.fst) m hremnodup hremmem hnodup
    omega

/-- Appending a fresh entry does not change lookups of other keys
(`find?` level). -/
theorem find?_append_ne {α : Type} (m : List (String × α)) (k k' : String)
    (v : α) (hne : k' ≠ k) :
    (m ++ [(k, v)]).find? (fun e => e.1 = k') = m.find? (fun e => e.1 = k') := by
  induction m with
  | nil => simp [List.find?, Ne.symm hne]
  | cons e m ih =>
    by_cases he : e.1 = k'
    · simp [List.find?_cons, he]
    · simp [List.find?_cons, he, ih]

/-- Appending a fresh entry does not change `assocLookup` of other keys. -/
theorem assocLookup_append_ne {α : Type} (m : List (String × α)) (k k' : String)
    (v : α) (hne : k' ≠ k) :
    assocLookup (m ++ [(k, v)]) k' = assocLookup m k' := by
  simp [assocLookup, find?_append_ne m k k' v hne]

/-- A `check_token_bucket` call on a key absent from the map appends exactly
one new bucket entry under that key. -/
theorem check_token_bucket_fresh (rl : RateLimiter) (cfg : RateLimitConfig)
    (k : String) (now : Nat) (h : assocLookup rl.buckets k = none) :
    ∃ b, (rl.check_token_bucket cfg k now).2.buckets = rl.buckets ++ [(k, b)] :=
  ⟨_, by simp only [RateLimiter.check_token_bucket, h]; rfl⟩

/-- A burst of checks on pairwise-distinct keys, each absent from the map,
grows the bucket map by exactly one entry per key: no eviction happens
inside the request path. -/
theorem applyChecks_fresh_length (cfg : RateLimitConfig) (now : Nat)
    (ks : List String) :
    ∀ (rl : RateLimiter), ks.Nodup →
    (∀ k ∈ ks, assocLookup rl.buckets k = none) →
    (applyChecks cfg now ks rl).buckets.length = rl.buckets.length + ks.length := by
  induction ks with
  | nil => intro rl _ _; simp [applyChecks]
  | cons k ks ih =>
    intro rl hnd hfresh
    obtain ⟨b, hb⟩ :=
      check_token_bucket_fresh rl cfg k now (hfresh k (List.mem_cons_self k ks))
    simp only [applyChecks]
    have hnd' := List.nodup_cons.1 hnd
    have hfresh' : ∀ k' ∈ ks,
        assocLookup (rl.check_token_bucket cfg k now).2.buckets k' = none := by
      intro k' hk'
      have hne : k' ≠ k := fun hEq => hnd'.1 (hEq ▸ hk')
      rw [hb, assocLookup_append_ne rl.buckets k k' b hne]
      exact hfresh k' (List.mem_cons_of_mem k hk')
    rw [ih _ hnd'.2 hfresh', hb]
    simp [List.length_append]
    omega

/-- **C4 (counterexample).** The cap is not an invariant that holds "at every
point in time": eviction runs only in the periodic GC task
(`evict_stale`, every `GC_INTERVAL_SECS = 60` seconds), while the request
path (`check_token_bucket`) inserts fresh keys unconditionally.  A burst of
100 001 requests with pairwise-distinct rate-limit keys between two GC
passes leaves the bucket map holding `MAX_ENTRIES + 1 > 100 000` entries. -/
theorem C4_counterexample :
    MAX_ENTRIES <
      (applyChecks tbConfig 0 manyKeys
        { buckets := [], windows := [], instance_count := 1 }).buckets.length := by
  have hinj : Function.Injective (fun i => String.mk (List.replicate i 'a')) := by
    intro a b h
    have h2 : List.replicate a 'a' = List.replicate b 'a' := congrArg String.data h
    simpa using congrArg List.length h2
  have hnd : manyKeys.Nodup := by
    unfold manyKeys
    exact (List.nodup_range _).map hinj
  have hlen := applyChecks_fresh_length tbConfig 0 manyKeys
    { buckets := [], windows := [], instance_count := 1 } hnd
    (fun k _ => rfl)
  have hml : manyKeys.length = MAX_ENTRIES + 1 := by
    unfold manyKeys
    rw [List.length_map, List.length_range]
  rw [hlen, hml]
  omega

/-- **C4 (amended).** What the code does guarantee: whenever the GC pass
`evict_stale` runs (every `GC_INTERVAL_SECS = 60` seconds), it leaves both
rate-limiter maps holding at most `MAX_ENTRIES = 100 000` entries — entries
idle for `GC_EXPIRE_SECS` are dropped first, and if a map still exceeds the
cap the oldest-access entries are force-evicted down to exactly the cap.
Between GC passes the request path may push a map past the cap
(`C4_counterexample`). Stated for maps with pairwise-distinct keys, the
invariant `DashMap` provides. -/
theorem C4_gc_caps_maps (rl : RateLimiter) (now : Nat)
    (hb : (rl.buckets.map Prod.fst).Nodup)
    (hw : (rl.windows.map Prod.fst).Nodup) :
    (rl.evict_stale now).buckets.length ≤ MAX_ENTRIES ∧
    (rl.evict_stale now).windows.length ≤ MAX_ENTRIES := by
  constructor
  · show (if (rl.buckets.filter
          (fun v => now - v.2.last_access < GC_EXPIRE_SECS * 1000000)).length
            > MAX_ENTRIES
        then forceEvictEntries (fun b => b.last_access)
          (rl.buckets.filter
            (fun v => now - v.2.last_access < GC_EXPIRE_SECS * 1000000)) now
        else rl.buckets.filter
          (fun v => now - v.2.last_access < GC_EXPIRE_SECS * 1000000)).length
      ≤ MAX_ENTRIES
    split
    · exact forceEvictEntries_le (fun b : Bucket => b.last_access)
        (rl.buckets.filter
          (fun v => now - v.2.last_access < GC_EXPIRE_SECS * 1000000)) now
        ((filter_keys_sublist rl.buckets
          (fun v => now - v.2.last_access < GC_EXPIRE_SECS * 1000000)).nodup hb)
    · next h => exact Nat.le_of_not_lt h
  · show (if (rl.windows.filter
          (fun v => now - v.2.last_access < GC_EXPIRE_SECS * 1000000)).length
            > MAX_ENTRIES
        then forceEvictEntries (fun w => w.last_access)
          (rl.windows.filter
            (fun v => now - v.2.last_access < GC_EXPIRE_SECS * 1000000)) now
        else rl.windows.filter
          (fun v => now - v.2.last_access < GC_EXPIRE_SECS * 1000000)).length
      ≤ MAX_ENTRIES
    split
    · exact forceEvictEntries_le (fun w : SlidingWindow => w.last_access)
        (rl.windows.filter
          (fun v => now - v.2.last_access < GC_EXPIRE_SECS * 1000000)) now
        ((filter_keys_sublist rl.windows
          (fun v => now - v.2.last_access < GC_EXPIRE_SECS * 1000000)).nodup hw)
    · next h => exact Nat.le_of_not_lt h

/-- Witness: the GC cap theorem at a concrete one-bucket limiter. -/
theorem C4_gc_caps_maps_witness :
    (demoLimiter.evict_stale 5).buckets.length ≤ MAX_ENTRIES ∧
    (demoLimiter.evict_stale 5).windows.length ≤ MAX_ENTRIES :=
  C4_gc_caps_maps demoLimiter 5 (by decide) (by decide)
